import Mathlib

/-!
# lxecs: a shallow embedding of the ECS engine and of the platformer systems

Source files: `managers.h` (the engine: `set_intersection`, `System`,
`ComponentManager`, `SystemManager`, `World`) and `platformer.h` (the components
and systems of the demo).

Modelling conventions.

* `Entity` is `long`, `int` fields are `int`: both are embedded as `Int`. The
  counter `m_next_entity++` and the additions `m_x += dx`, `m_y += dy` are exact:
  signed overflow is undefined behaviour in C++, and the statements about them
  are about the executions without it. The sums `x + w` and `y + h` inside
  `test_collision` are reduced to 32 bits in two's complement (`int32`), which is
  what the compiled code computes when a rectangle reaches past `INT_MAX`.
* `unordered_set<Entity>` is a list of entities. `insert` keeps an element that is
  already there, so every set built by the code has no duplicates. The iteration
  order of the container is the order of the list.
* `unordered_map<Entity, C>` is an association list. Lookup (`find`) returns the
  first entry with the key, `operator[]` followed by an assignment overwrites that
  entry or appends a new one. The functions do not require the keys of the list
  to be distinct, they keep them distinct.
* `tuple<unordered_map<Entity, Components>...>` is a family of tables indexed by
  the component type; `get<unordered_map<Entity, Component>>` is the application
  of that family to the index of the component type.
* Dereferencing an empty `optional` is undefined behaviour: code that does it
  returns `Option`, and `none` is that dereference.
-/

namespace lxecs

/-- `using Entity = long;` -/
abbrev Entity := Int

/-! ## `unordered_set<Entity>` -/

/-- `unordered_set<Entity>`: the elements in iteration order. -/
abbrev USet := List Entity

namespace USet

/-- `unordered_set::count`: 1 when the element is in the set, 0 otherwise. -/
def count (s : USet) (x : Entity) : Nat :=
  if x ∈ s then 1 else 0

/-- `unordered_set::insert`: nothing happens when the element is already there. -/
def insert (s : USet) (x : Entity) : USet :=
  if x ∈ s then s else s ++ [x]

end USet

/-- `set_intersection(a, b)` (managers.h 35-45): walks over `b` and inserts into the
result every entry that `a` counts. -/
def set_intersection (a b : USet) : USet :=
  b.foldl (fun result entry => if a.count entry > 0 then result.insert entry else result) []

/-! ## `unordered_map<Entity, C>` -/

/-- `unordered_map<Entity, C>`: the entries in iteration order. -/
abbrev Table (C : Type) := List (Entity × C)

namespace Table

/-- `storage.find(e)`, with `none` for `storage.end()`. -/
def find {C : Type} : Table C → Entity → Option C
  | [], _ => none
  | (k, c) :: rest, e => if k = e then some c else find rest e

/-- `storage[e] = c`: the entry of `e` is overwritten, or created when there is
none. -/
def assign {C : Type} : Table C → Entity → C → Table C
  | [], e, c => [(e, c)]
  | (k, c0) :: rest, e, c => if k = e then (k, c) :: rest else (k, c0) :: assign rest e c

/-- A write through a reference `C&` that was obtained from `find(e)`: the value of
the entry changes, the entries of the table stay the same. -/
def write {C : Type} : Table C → Entity → C → Table C
  | [], _, _ => []
  | (k, c0) :: rest, e, c => if k = e then (k, c) :: rest else (k, c0) :: write rest e c

end Table

/-! ## `ComponentManager<Components...>` -/

/-- `ComponentManager<Components...>` (managers.h 62-115). `ι` indexes the pack
`Components...` and `C i` is the component type with index `i`. -/
structure ComponentManager (ι : Type) (C : ι → Type) where
  /-- `tuple<unordered_map<Entity, Components>...> m_components` -/
  m_components : (i : ι) → Table (C i)
  /-- `Entity m_next_entity = 0` -/
  m_next_entity : Entity

namespace ComponentManager

variable {ι : Type} [DecidableEq ι] {C : ι → Type}

/-- The freshly constructed store: every table empty, the counter at 0. -/
def fresh : ComponentManager ι C :=
  { m_components := fun _ => [], m_next_entity := 0 }

/-- `add_to_entity<Component>(e, c)` (managers.h 68-71). -/
def add_to_entity (cm : ComponentManager ι C) (i : ι) (e : Entity) (c : C i) :
    ComponentManager ι C :=
  { cm with m_components := Function.update cm.m_components i ((cm.m_components i).assign e c) }

/-- `get_entity<Component>(e)` (managers.h 73-82). -/
def get_entity (cm : ComponentManager ι C) (i : ι) (e : Entity) : Option (C i) :=
  (cm.m_components i).find e

/-- `create_entity()` (managers.h 84-86): the value returned and the store after
the post-increment. -/
def create_entity (cm : ComponentManager ι C) : Entity × ComponentManager ι C :=
  (cm.m_next_entity, { cm with m_next_entity := cm.m_next_entity + 1 })

/-- `__select<Component>()` (managers.h 88-96): the keys of one table. -/
def __select (cm : ComponentManager ι C) (i : ι) : USet :=
  (cm.m_components i).foldl (fun results entry => results.insert entry.1) []

/-- `__select_into<Component>(results, first)` (managers.h 98-106); the two
reference parameters are the state that is passed and returned. -/
def __select_into (cm : ComponentManager ι C) (st : USet × Bool) (i : ι) : USet × Bool :=
  let selection := cm.__select i
  let st1 : USet × Bool := if st.2 then (selection, false) else st
  (set_intersection st1.1 selection, st1.2)

/-- `select<QueryComponents...>()` (managers.h 108-114): the fold expression
`(..., __select_into<QueryComponents>(result, first))` runs left to right. -/
def select (cm : ComponentManager ι C) (types : List ι) : USet :=
  (types.foldl cm.__select_into ([], true)).1

/-- A write through the reference returned by `get_entity<Component>(e)`. -/
def write (cm : ComponentManager ι C) (i : ι) (e : Entity) (c : C i) : ComponentManager ι C :=
  { cm with m_components := Function.update cm.m_components i ((cm.m_components i).write e c) }

end ComponentManager

/-- `System<Components...>::select(cm)` (managers.h 56-59): the query of the
manager with the declared types of the system. -/
def System.select {ι : Type} [DecidableEq ι] {C : ι → Type} (types : List ι)
    (cm : ComponentManager ι C) : USet :=
  cm.select types

/-! ## Sequences of store operations -/

/-- One call on a store by the host: `create_entity()` or
`add_to_entity<Component>(e, c)`. -/
inductive StoreOp (ι : Type) (C : ι → Type) where
  | create : StoreOp ι C
  | add (i : ι) (e : Entity) (c : C i) : StoreOp ι C

/-- The calls of a sequence applied in order to a store: the store reached and the
identifiers that the `create_entity` calls returned, oldest first. -/
def run_ops {ι : Type} [DecidableEq ι] {C : ι → Type} :
    List (StoreOp ι C) → ComponentManager ι C → ComponentManager ι C × List Entity
  | [], cm => (cm, [])
  | StoreOp.create :: rest, cm =>
      let r := run_ops rest cm.create_entity.2
      (r.1, cm.create_entity.1 :: r.2)
  | StoreOp.add i e c :: rest, cm => run_ops rest (cm.add_to_entity i e c)

/-! ## `SystemManager<Systems...>` and `World` -/

/-- `SystemManager<Systems...>` (managers.h 117-135): the systems in declaration
order. -/
structure SystemManager (S : Type) where
  /-- `tuple<Systems...> m_systems` -/
  m_systems : List S

namespace SystemManager

variable {S CM : Type}

/-- `__dispatch<System>(cm)` (managers.h 126-129): `run` of that system on the
store. `run s cm` is `none` when the body of the system runs into undefined
behaviour. -/
def __dispatch (run : S → CM → Option CM) (s : S) (cm : CM) : Option CM :=
  run s cm

/-- The fold expression `(..., __dispatch<Systems>(cm))` over the remaining
systems, left to right. -/
def dispatch_pack (run : S → CM → Option CM) : List S → CM → Option CM
  | [], cm => some cm
  | s :: rest, cm =>
      match __dispatch run s cm with
      | none => none
      | some cm1 => dispatch_pack run rest cm1

/-- `dispatch(cm)` (managers.h 131-134). -/
def dispatch (run : S → CM → Option CM) (sm : SystemManager S) (cm : CM) : Option CM :=
  dispatch_pack run sm.m_systems cm

end SystemManager

/-- `World<SpecializedSystemManager, SpecializedComponentManager>`
(managers.h 147-158). -/
structure World (S CM : Type) where
  m_component_mgr : CM
  m_system_mgr : SystemManager S

/-- `World::tick()` (managers.h 155-157). -/
def World.tick {S CM : Type} (run : S → CM → Option CM) (w : World S CM) : Option (World S CM) :=
  match w.m_system_mgr.dispatch run w.m_component_mgr with
  | none => none
  | some cm => some { w with m_component_mgr := cm }

/-- A system that records its invocation: it runs on the store and then appends
itself to the recorded sequence of invocations. -/
def traced {S CM : Type} (run : S → CM → Option CM) (s : S) (st : CM × List S) :
    Option (CM × List S) :=
  match run s st.1 with
  | none => none
  | some cm => some (cm, st.2 ++ [s])

/-! ## The components of the platformer (platformer.h 15-65) -/

/-- `SDL_Rect`: four `int` fields. -/
structure SDL_Rect where
  x : Int
  y : Int
  w : Int
  h : Int
  deriving DecidableEq, Repr

/-- `class InputComponent : public Component {}` -/
structure InputComponent where
  deriving DecidableEq, Repr

/-- `class XYComponent` -/
structure XYComponent where
  m_x : Int
  m_y : Int
  deriving DecidableEq, Repr

/-- `class CollisionComponent` -/
structure CollisionComponent where
  m_rect : SDL_Rect
  m_active : Bool
  m_colliding : USet
  deriving DecidableEq, Repr

/-- `class SpriteComponent`; the texture pointer is an address. -/
structure SpriteComponent where
  m_texture : Nat
  m_rect : SDL_Rect
  deriving DecidableEq, Repr

/-- The pack of `ComponentManager<XYComponent, SpriteComponent, InputComponent,
CollisionComponent>` (platformer.h 168). -/
inductive CompType where
  | XY | Sprite | Input | Collision
  deriving DecidableEq, Repr

/-- The component type of each index of the pack. -/
@[reducible] def Comp : CompType → Type
  | .XY => XYComponent
  | .Sprite => SpriteComponent
  | .Input => InputComponent
  | .Collision => CollisionComponent

/-- `SComponentMgr` (platformer.h 168). -/
abbrev Store := ComponentManager CompType Comp

/-! ## `InputSystem` (platformer.h 95-111) -/

/-- `SDL_SCANCODE_RIGHT` of the SDL headers. -/
def SDL_SCANCODE_RIGHT : Nat := 79

/-- `SDL_SCANCODE_LEFT` of the SDL headers. -/
def SDL_SCANCODE_LEFT : Nat := 80

/-- `SDL_SCANCODE_DOWN` of the SDL headers. -/
def SDL_SCANCODE_DOWN : Nat := 81

/-- `SDL_SCANCODE_UP` of the SDL headers. -/
def SDL_SCANCODE_UP : Nat := 82

/-- The array returned by `SDL_GetKeyboardState`: one `Uint8` for each scancode. -/
abbrev KeyboardState := Nat → Nat

/-- `keys[i]` as the `Uint8` it is, promoted to `int`. -/
def key (keys : KeyboardState) (i : Nat) : Int :=
  ((keys i % 256 : Nat) : Int)

namespace InputSystem

/-- The declared types of `System<InputComponent, XYComponent>`. -/
def types : List CompType := [.Input, .XY]

/-- The body of the loop (platformer.h 105-108) for one entity. -/
def body (dx dy : Int) (cm : Store) (e : Entity) : Option Store :=
  match cm.get_entity .XY e with
  | none => none
  | some xyc => some (cm.write .XY e { m_x := xyc.m_x + dx, m_y := xyc.m_y + dy })

/-- The loop `for (Entity e : xy_input)` (platformer.h 104-109). -/
def loop (dx dy : Int) (xy_input : USet) (cm : Store) : Option Store :=
  xy_input.foldlM (body dx dy) cm

/-- Lines 103-109 of `run`, for a delta `dx`, `dy` already computed. -/
def run_delta (dx dy : Int) (cm : Store) : Option Store :=
  loop dx dy (System.select types cm) cm

/-- `InputSystem::run(cm)` for the keyboard state that SDL reports. -/
def run (keys : KeyboardState) (cm : Store) : Option Store :=
  let dx := key keys SDL_SCANCODE_RIGHT - key keys SDL_SCANCODE_LEFT
  let dy := key keys SDL_SCANCODE_DOWN - key keys SDL_SCANCODE_UP
  run_delta dx dy cm

end InputSystem

/-! ## `CollisionSystem` (platformer.h 113-157) -/

/-- `INT_MIN` of a 32-bit `int`. -/
def INT_MIN : Int := -2147483648

/-- `INT_MAX` of a 32-bit `int`. -/
def INT_MAX : Int := 2147483647

/-- The value of a 32-bit `int` that holds the exact result `n` of an addition:
`n` reduced modulo `2^32` into `INT_MIN .. INT_MAX`. -/
def int32 (n : Int) : Int :=
  (n + 2147483648) % 4294967296 - 2147483648

namespace CollisionSystem

/-- The declared types of `System<XYComponent, CollisionComponent>`. -/
def types : List CompType := [.XY, .Collision]

/-- `test_collision(r1, r2)` (platformer.h 114-120); every sum is an `int`
addition. -/
def test_collision (r1 r2 : SDL_Rect) : Bool :=
  let collides_x := decide (r1.x ≥ r2.x) && decide (r1.x ≤ int32 (r2.x + r2.w))
  let collides_x := collides_x
    || (decide (int32 (r1.x + r1.w) ≥ r2.x) && decide (int32 (r1.x + r1.w) ≤ int32 (r2.x + r2.w)))
  let collides_y := decide (r1.y ≥ r2.y) && decide (r1.y ≤ int32 (r2.y + r2.h))
  let collides_y := collides_y
    || (decide (int32 (r1.y + r1.h) ≥ r2.y) && decide (int32 (r1.y + r1.h) ≤ int32 (r2.y + r2.h)))
  collides_x && collides_y

/-- The body of the inner loop (platformer.h 138-153) for the entity `e` of the
outer loop and one `other_e`. `cc` is a reference into the table: what the code
reads through it is what the table holds for `e` at that moment. -/
def inner (e : Entity) (cm : Store) (other_e : Entity) : Option Store :=
  if other_e = e then some cm
  else
    match cm.get_entity .XY other_e, cm.get_entity .Collision other_e,
        cm.get_entity .Collision e with
    | some other_xyc, some other_cc, some cc =>
      if !cc.m_active then some cm
      else
        let other_cc1 : CollisionComponent :=
          { other_cc with m_rect := { other_cc.m_rect with x := other_xyc.m_x, y := other_xyc.m_y } }
        let cm1 := cm.write .Collision other_e other_cc1
        match cm1.get_entity .Collision e with
        | some cc1 =>
          if test_collision cc1.m_rect other_cc1.m_rect then
            some (cm1.write .Collision e
              { cc1 with m_colliding := USet.insert cc1.m_colliding other_e })
          else some cm1
        | none => none
    | _, _, _ => none

/-- The body of the outer loop (platformer.h 126-154) for one entity `e`, the
inner loop walking over `collidables`. -/
def outer (collidables : USet) (cm : Store) (e : Entity) : Option Store :=
  match cm.get_entity .XY e, cm.get_entity .Collision e with
  | some xyc, some cc =>
    if !cc.m_active then some cm
    else
      let cc1 : CollisionComponent :=
        { cc with m_colliding := [], m_rect := { cc.m_rect with x := xyc.m_x, y := xyc.m_y } }
      collidables.foldlM (inner e) (cm.write .Collision e cc1)
  | _, _ => none

/-- The two nested loops (platformer.h 125-155) over the set `collidables`. -/
def run_over (collidables : USet) (cm : Store) : Option Store :=
  collidables.foldlM (outer collidables) cm

/-- `CollisionSystem::run(cm)` (platformer.h 122-156). -/
def run (cm : Store) : Option Store :=
  run_over (System.select types cm) cm

end CollisionSystem

/-! ## Predicates on stores -/

/-- The two stores have entries for the same (type, entity) pairs. -/
def SameKeys {ι : Type} {C : ι → Type} (cm cm1 : ComponentManager ι C) : Prop :=
  ∀ (i : ι) (e : Entity), (cm1.get_entity i e).isSome = (cm.get_entity i e).isSome

/-- Every entity of the list has an `XY` and a `Collision` component. -/
def Collidable (l : List Entity) (cm : Store) : Prop :=
  ∀ e ∈ l, (cm.get_entity .XY e).isSome = true ∧ (cm.get_entity .Collision e).isSome = true

/-- The tables other than `Collision` and the counter are the same in the two
stores. -/
def Frame (cm cm1 : Store) : Prop :=
  (∀ i : CompType, i ≠ .Collision → cm1.m_components i = cm.m_components i)
    ∧ cm1.m_next_entity = cm.m_next_entity

/-- The keys of a table, in the order of its entries. -/
def Table.keys {C : Type} (t : Table C) : List Entity :=
  t.map Prod.fst

/-- Every table has the same keys in the two stores, and the counter is the
same. -/
def SameShape {ι : Type} {C : ι → Type} (cm cm1 : ComponentManager ι C) : Prop :=
  (∀ i : ι, (cm1.m_components i).keys = (cm.m_components i).keys)
    ∧ cm1.m_next_entity = cm.m_next_entity

/-- The rectangle of a collision component with `x`, `y` set to a position, as
lines 134-135 and 148-149 of platformer.h set them. -/
def moved (c : CollisionComponent) (xy : XYComponent) : SDL_Rect :=
  { c.m_rect with x := xy.m_x, y := xy.m_y }

/-- The collision component with its rectangle moved to the `XY` of the entity,
when the entity has one. -/
def relocate (cm : Store) (x : Entity) (c : CollisionComponent) : CollisionComponent :=
  match cm.get_entity .XY x with
  | some xy => { c with m_rect := moved c xy }
  | none => c

/-- `test_collision` of the rectangle `r` against the rectangle of `o` moved to the
`XY` of `o`; false when `o` lacks one of the two components. -/
def hits (cm : Store) (r : SDL_Rect) (o : Entity) : Bool :=
  match cm.get_entity .XY o, cm.get_entity .Collision o with
  | some oxy, some oc => CollisionSystem.test_collision r (moved oc oxy)
  | _, _ => false

/-- `test_collision(rect of e moved to XY(e), rect of o moved to XY(o))`; false
when one of the four components is missing. -/
def collides (cm : Store) (e o : Entity) : Bool :=
  match cm.get_entity .XY e, cm.get_entity .Collision e with
  | some xy, some c => hits cm (moved c xy) o
  | _, _ => false

/-- The entity has a `Collision` component with `m_active` set. -/
def is_active (cm : Store) (e : Entity) : Bool :=
  match cm.get_entity .Collision e with
  | some c => c.m_active
  | none => false

/-- The colliding set of an entity, empty when it has no `Collision` component. -/
def colliding (cm : Store) (e : Entity) : USet :=
  match cm.get_entity .Collision e with
  | some c => c.m_colliding
  | none => []

/-- Two collision components that differ at most in how the colliding set is
laid out: same rectangle, same flag, same members. -/
def CollisionEquiv : Option CollisionComponent → Option CollisionComponent → Prop
  | none, none => True
  | some c1, some c2 =>
      c1.m_rect = c2.m_rect ∧ c1.m_active = c2.m_active
        ∧ ∀ y : Entity, y ∈ c1.m_colliding ↔ y ∈ c2.m_colliding
  | _, _ => False

/-- Two stores that no call can tell apart, the iteration order inside the
colliding sets aside. -/
def StoreEquiv (cm1 cm2 : Store) : Prop :=
  (∀ i : CompType, i ≠ .Collision → cm1.m_components i = cm2.m_components i)
    ∧ cm1.m_next_entity = cm2.m_next_entity
    ∧ (cm1.m_components .Collision).keys = (cm2.m_components .Collision).keys
    ∧ ∀ x : Entity, CollisionEquiv (cm1.get_entity .Collision x) (cm2.get_entity .Collision x)

/-- The state of the inner loop of `CollisionSystem::run` for the entity `e`, whose
component was `cc` when the loop started on the store `cm`, after the entities `D`
have been visited: the rectangle and the flag of `e` are as they were, its
colliding set has gained the visited entities that its rectangle hits, and the
visited entities have their rectangles moved to their positions. -/
def InnerInv (cm : Store) (e : Entity) (cc : CollisionComponent) (D : List Entity)
    (cm1 : Store) : Prop :=
  Frame cm cm1
    ∧ (∃ cc1 : CollisionComponent, cm1.get_entity .Collision e = some cc1
        ∧ cc1.m_rect = cc.m_rect ∧ cc1.m_active = cc.m_active
        ∧ (cc.m_colliding.Nodup → cc1.m_colliding.Nodup)
        ∧ ∀ y : Entity, y ∈ cc1.m_colliding
            ↔ y ∈ cc.m_colliding ∨ (y ∈ D ∧ y ≠ e ∧ hits cm cc.m_rect y = true))
    ∧ ∀ x : Entity, x ≠ e →
        cm1.get_entity .Collision x =
          if x ∈ D then (cm.get_entity .Collision x).map (relocate cm x)
          else cm.get_entity .Collision x

/-- The rectangle of `x` has been moved by the time the outer loop over `L` has
visited `D`: `x` was visited and is active, or `x` is in `L` and some other
active entity was visited. -/
def Touched (cm : Store) (L D : List Entity) (x : Entity) : Prop :=
  (x ∈ D ∧ is_active cm x = true) ∨ (x ∈ L ∧ ∃ e ∈ D, e ≠ x ∧ is_active cm e = true)

/-- The state of the outer loop of `CollisionSystem::run` over `L`, started on the
store `cm`, after the entities `D` have been visited. -/
def OuterInv (cm : Store) (L D : List Entity) (cm1 : Store) : Prop :=
  Frame cm cm1
    ∧ ∀ x : Entity,
        (cm.get_entity .Collision x = none → cm1.get_entity .Collision x = none)
        ∧ ∀ c : CollisionComponent, cm.get_entity .Collision x = some c →
            ∃ c1 : CollisionComponent, cm1.get_entity .Collision x = some c1
              ∧ c1.m_active = c.m_active
              ∧ ((x ∈ D ∧ c.m_active = true) →
                  c1.m_colliding.Nodup
                    ∧ ∀ y : Entity, y ∈ c1.m_colliding
                        ↔ y ∈ L ∧ y ≠ x ∧ collides cm x y = true)
              ∧ (¬ (x ∈ D ∧ c.m_active = true) → c1.m_colliding = c.m_colliding)
              ∧ (Touched cm L D x → c1.m_rect = (relocate cm x c).m_rect)
              ∧ (¬ Touched cm L D x → c1.m_rect = c.m_rect)

/-! ## A world made of the two systems -/

/-- The systems `InputSystem` and `CollisionSystem` as members of one system
list. -/
inductive GameSystem where
  | input | collision
  deriving DecidableEq, Repr

/-- `run` of a system of the list, for the keyboard state of the frame. -/
def GameSystem.run (keys : KeyboardState) : GameSystem → Store → Option Store
  | .input, cm => InputSystem.run keys cm
  | .collision, cm => CollisionSystem.run cm

/-- One `tick()` for each frame of the list, the keyboard state of the frame
given. -/
def run_ticks : List KeyboardState → World GameSystem Store → Option (World GameSystem Store)
  | [], w => some w
  | keys :: frames, w =>
      match World.tick (GameSystem.run keys) w with
      | none => none
      | some w1 => run_ticks frames w1

/-! ## Sequences of calls that only use issued identifiers -/

/-- Every `add_to_entity` of the sequence names an identifier that an earlier
`create_entity` of the sequence returned (or that is in `issued` already). -/
def issued_only {ι : Type} [DecidableEq ι] {C : ι → Type} :
    List Entity → ComponentManager ι C → List (StoreOp ι C) → Bool
  | _, _, [] => true
  | issued, cm, StoreOp.create :: rest =>
      issued_only (cm.create_entity.1 :: issued) cm.create_entity.2 rest
  | issued, cm, StoreOp.add i e c :: rest =>
      decide (e ∈ issued) && issued_only issued (cm.add_to_entity i e c) rest

/-! ## Scenario stores -/

/-- The store of the collision scenarios: entity 0 with `xy0` and `c0`, entity 1
with `xy1` and `c1`. -/
def scenario_pair (xy0 xy1 : XYComponent) (c0 c1 : CollisionComponent) : Store :=
  let cm : Store := ComponentManager.fresh
  let r0 := cm.create_entity
  let cm0 := (r0.2.add_to_entity .XY r0.1 xy0).add_to_entity .Collision r0.1 c0
  let r1 := cm0.create_entity
  (r1.2.add_to_entity .XY r1.1 xy1).add_to_entity .Collision r1.1 c1

/-- The calls of a host that creates entity 0, gives it `XY(0,0)`, creates entity 1
and gives it `Input`. -/
def scenario_ops : List (StoreOp CompType Comp) :=
  [StoreOp.create, StoreOp.add CompType.XY 0 { m_x := 0, m_y := 0 }, StoreOp.create,
    StoreOp.add CompType.Input 1 {}]

/-- `CollisionComponent(rect)` for a rectangle of the given size at the origin. -/
def collision_box (w h : Int) : CollisionComponent :=
  { m_rect := { x := 0, y := 0, w := w, h := h }, m_active := true, m_colliding := [] }

/-- The store after `n` further calls of `create_entity()`, the returned
identifiers dropped. -/
def create_entities {ι : Type} {C : ι → Type} : Nat → ComponentManager ι C → ComponentManager ι C
  | 0, cm => cm
  | n + 1, cm => create_entities n cm.create_entity.2

/-- Three component types `A`, `B`, `C` of a store without behaviour. -/
inductive ABC where
  | A | B | C
  deriving DecidableEq, Repr

/-- The store of the position scenario: entity 0 with `XY(x, y)` and `Input`. -/
def scenario_input (x y : Int) : Store :=
  let cm : Store := ComponentManager.fresh
  let r := cm.create_entity
  (r.2.add_to_entity .XY r.1 { m_x := x, m_y := y }).add_to_entity .Input r.1 {}

/-! ## Lemmas on sets and tables -/

theorem USet.mem_insert (s : USet) (x y : Entity) : y ∈ s.insert x ↔ y ∈ s ∨ y = x := by
  unfold USet.insert
  by_cases h : x ∈ s
  · simp only [h, if_true]
    constructor
    · intro hy; exact Or.inl hy
    · rintro (hy | rfl)
      · exact hy
      · exact h
  · simp [h]

theorem USet.nodup_insert (s : USet) (x : Entity) (hs : s.Nodup) : (s.insert x).Nodup := by
  unfold USet.insert
  by_cases h : x ∈ s
  · simpa [h] using hs
  · simp only [h, if_false]
    exact List.Nodup.append hs (List.nodup_singleton x) (by simpa using h)

theorem USet.count_pos (s : USet) (x : Entity) : s.count x > 0 ↔ x ∈ s := by
  unfold USet.count
  by_cases h : x ∈ s <;> simp [h]

/-- Membership in the result of a loop that inserts the entries satisfying `p`. -/
theorem mem_foldl_insert_if (p : Entity → Prop) [DecidablePred p] (l : List Entity) :
    ∀ (init : USet) (y : Entity),
      y ∈ l.foldl (fun result entry => if p entry then USet.insert result entry else result) init
        ↔ y ∈ init ∨ (y ∈ l ∧ p y) := by
  induction l with
  | nil => intro init y; simp
  | cons a l ih =>
    intro init y
    rw [List.foldl_cons, ih]
    by_cases hp : p a
    · simp only [hp, if_true, USet.mem_insert, List.mem_cons]
      constructor
      · rintro ((h | h) | h)
        · exact Or.inl h
        · exact Or.inr ⟨Or.inl h, h ▸ hp⟩
        · exact Or.inr ⟨Or.inr h.1, h.2⟩
      · rintro (h | ⟨h | h, hpy⟩)
        · exact Or.inl (Or.inl h)
        · exact Or.inl (Or.inr h)
        · exact Or.inr ⟨h, hpy⟩
    · simp only [hp, if_false, List.mem_cons]
      constructor
      · rintro (h | h)
        · exact Or.inl h
        · exact Or.inr ⟨Or.inr h.1, h.2⟩
      · rintro (h | ⟨h | h, hpy⟩)
        · exact Or.inl h
        · exact absurd (h ▸ hpy) hp
        · exact Or.inr ⟨h, hpy⟩

/-- A loop that only inserts keeps the set free of duplicates. -/
theorem nodup_foldl_insert_if (p : Entity → Prop) [DecidablePred p] (l : List Entity) :
    ∀ (init : USet), init.Nodup →
      (l.foldl (fun result entry => if p entry then USet.insert result entry else result)
        init).Nodup := by
  induction l with
  | nil => intro init h; simpa using h
  | cons a l ih =>
    intro init h
    rw [List.foldl_cons]
    apply ih
    by_cases hp : p a
    · simpa [hp] using USet.nodup_insert init a h
    · simpa [hp] using h

theorem mem_set_intersection (a b : USet) (x : Entity) :
    x ∈ set_intersection a b ↔ x ∈ a ∧ x ∈ b := by
  unfold set_intersection
  rw [mem_foldl_insert_if (fun entry => a.count entry > 0) b [] x]
  simp only [List.not_mem_nil, false_or, USet.count_pos]
  exact And.comm

theorem nodup_set_intersection (a b : USet) : (set_intersection a b).Nodup := by
  unfold set_intersection
  exact nodup_foldl_insert_if (fun entry => a.count entry > 0) b [] List.nodup_nil

theorem Table.mem_keys_foldl {C : Type} (t : Table C) :
    ∀ (init : USet) (y : Entity),
      y ∈ t.foldl (fun results entry => USet.insert results entry.1) init
        ↔ y ∈ init ∨ (t.find y).isSome := by
  induction t with
  | nil => intro init y; simp [Table.find]
  | cons a t ih =>
    intro init y
    obtain ⟨k, c⟩ := a
    rw [List.foldl_cons, ih, USet.mem_insert]
    by_cases hk : k = y
    · subst hk; simp [Table.find]
    · have hk2 : ¬ y = k := fun h => hk h.symm
      simp [Table.find, hk, hk2]

theorem Table.nodup_keys_foldl {C : Type} (t : Table C) :
    ∀ (init : USet), init.Nodup →
      (t.foldl (fun results entry => USet.insert results entry.1) init).Nodup := by
  induction t with
  | nil => intro init h; simpa using h
  | cons a t ih =>
    intro init h
    rw [List.foldl_cons]
    exact ih _ (USet.nodup_insert init a.1 h)

theorem Table.find_assign_same {C : Type} (t : Table C) (e : Entity) (c : C) :
    (t.assign e c).find e = some c := by
  induction t with
  | nil => simp [Table.assign, Table.find]
  | cons a t ih =>
    obtain ⟨k, c0⟩ := a
    by_cases hk : k = e
    · simp [Table.assign, Table.find, hk]
    · simp [Table.assign, Table.find, hk, ih]

theorem Table.find_assign_ne {C : Type} (t : Table C) (e e1 : Entity) (c : C) (h : e1 ≠ e) :
    (t.assign e c).find e1 = t.find e1 := by
  induction t with
  | nil =>
    have h2 : ¬ e = e1 := fun h3 => h h3.symm
    simp [Table.assign, Table.find, h2]
  | cons a t ih =>
    obtain ⟨k, c0⟩ := a
    by_cases hk : k = e
    · have hk2 : ¬ e = e1 := fun h3 => h h3.symm
      subst hk
      simp [Table.assign, Table.find, hk2]
    · by_cases hk1 : k = e1
      · subst hk1
        simp [Table.assign, Table.find, hk]
      · simp [Table.assign, Table.find, hk, hk1, ih]

theorem Table.find_write_same {C : Type} (t : Table C) (e : Entity) (c : C) :
    (t.write e c).find e = (t.find e).map (fun _ => c) := by
  induction t with
  | nil => simp [Table.write, Table.find]
  | cons a t ih =>
    obtain ⟨k, c0⟩ := a
    by_cases hk : k = e
    · simp [Table.write, Table.find, hk]
    · simp [Table.write, Table.find, hk, ih]

theorem Table.find_write_ne {C : Type} (t : Table C) (e e1 : Entity) (c : C) (h : e1 ≠ e) :
    (t.write e c).find e1 = t.find e1 := by
  induction t with
  | nil => simp [Table.write, Table.find]
  | cons a t ih =>
    obtain ⟨k, c0⟩ := a
    by_cases hk : k = e
    · have hk2 : ¬ e = e1 := fun h3 => h h3.symm
      subst hk
      simp [Table.write, Table.find, hk2]
    · by_cases hk1 : k = e1
      · subst hk1
        simp [Table.write, Table.find, hk]
      · simp [Table.write, Table.find, hk, hk1, ih]

/-! ## Lemmas on the component manager -/

namespace ComponentManager

variable {ι : Type} {C : ι → Type}

theorem get_entity_add_same [DecidableEq ι] (cm : ComponentManager ι C) (i : ι) (e : Entity) (c : C i) :
    (cm.add_to_entity i e c).get_entity i e = some c := by
  simp [add_to_entity, get_entity, Table.find_assign_same]

theorem get_entity_add_other [DecidableEq ι] (cm : ComponentManager ι C) (i i1 : ι) (e e1 : Entity) (c : C i)
    (h : i1 ≠ i ∨ e1 ≠ e) :
    (cm.add_to_entity i e c).get_entity i1 e1 = cm.get_entity i1 e1 := by
  by_cases hi : i1 = i
  · subst hi
    have he : e1 ≠ e := by
      rcases h with h | h
      · exact absurd rfl h
      · exact h
    simp [add_to_entity, get_entity, Table.find_assign_ne _ _ _ _ he]
  · simp [add_to_entity, get_entity, Function.update_noteq hi]

theorem get_entity_write_same [DecidableEq ι] (cm : ComponentManager ι C) (i : ι) (e : Entity) (c : C i) :
    (cm.write i e c).get_entity i e = (cm.get_entity i e).map (fun _ => c) := by
  simp [write, get_entity, Table.find_write_same]

theorem get_entity_write_other [DecidableEq ι] (cm : ComponentManager ι C) (i i1 : ι) (e e1 : Entity) (c : C i)
    (h : i1 ≠ i ∨ e1 ≠ e) :
    (cm.write i e c).get_entity i1 e1 = cm.get_entity i1 e1 := by
  by_cases hi : i1 = i
  · subst hi
    have he : e1 ≠ e := by
      rcases h with h | h
      · exact absurd rfl h
      · exact h
    simp [write, get_entity, Table.find_write_ne _ _ _ _ he]
  · simp [write, get_entity, Function.update_noteq hi]

/-- A write through a reference neither creates nor removes an entry. -/
theorem get_entity_write_isSome [DecidableEq ι] (cm : ComponentManager ι C) (i i1 : ι) (e e1 : Entity)
    (c : C i) :
    ((cm.write i e c).get_entity i1 e1).isSome = (cm.get_entity i1 e1).isSome := by
  by_cases h : i1 = i ∧ e1 = e
  · obtain ⟨hi, he⟩ := h
    subst hi; subst he
    rw [get_entity_write_same]
    cases cm.get_entity i1 e1 <;> rfl
  · have h2 : i1 ≠ i ∨ e1 ≠ e := by
      by_cases hi : i1 = i
      · exact Or.inr (fun he => h ⟨hi, he⟩)
      · exact Or.inl hi
    rw [get_entity_write_other cm i i1 e e1 c h2]

theorem mem___select (cm : ComponentManager ι C) (i : ι) (e : Entity) :
    e ∈ cm.__select i ↔ (cm.get_entity i e).isSome = true := by
  unfold __select get_entity
  rw [Table.mem_keys_foldl]
  simp

theorem nodup___select (cm : ComponentManager ι C) (i : ι) : (cm.__select i).Nodup :=
  Table.nodup_keys_foldl _ [] List.nodup_nil

theorem __select_into_first (cm : ComponentManager ι C) (r : USet) (i : ι) :
    cm.__select_into (r, true) i = (set_intersection (cm.__select i) (cm.__select i), false) := by
  simp [__select_into]

theorem __select_into_later (cm : ComponentManager ι C) (r : USet) (i : ι) :
    cm.__select_into (r, false) i = (set_intersection r (cm.__select i), false) := by
  simp [__select_into]

/-- Once `first` is cleared, the remaining types only intersect. -/
theorem mem_foldl_select_into (cm : ComponentManager ι C) (types : List ι) :
    ∀ (r : USet) (e : Entity),
      e ∈ (types.foldl cm.__select_into (r, false)).1
        ↔ e ∈ r ∧ ∀ i ∈ types, (cm.get_entity i e).isSome = true := by
  induction types with
  | nil => intro r e; simp
  | cons i types ih =>
    intro r e
    rw [List.foldl_cons, __select_into_later, ih, mem_set_intersection, mem___select]
    simp only [List.mem_cons, forall_eq_or_imp]
    exact and_assoc

/-- The characterisation of `select` on a non-empty list of types. -/
theorem mem_select_iff (cm : ComponentManager ι C) (types : List ι) (h : types ≠ [])
    (e : Entity) :
    e ∈ cm.select types ↔ ∀ i ∈ types, (cm.get_entity i e).isSome = true := by
  cases types with
  | nil => exact absurd rfl h
  | cons i types =>
    unfold select
    rw [List.foldl_cons, __select_into_first, mem_foldl_select_into, mem_set_intersection,
      mem___select]
    simp only [List.mem_cons, forall_eq_or_imp, and_self]

theorem select_nil (cm : ComponentManager ι C) : cm.select [] = [] := rfl

theorem nodup_foldl_select_into (cm : ComponentManager ι C) (types : List ι) :
    ∀ (st : USet × Bool), st.1.Nodup → (types.foldl cm.__select_into st).1.Nodup := by
  induction types with
  | nil => intro st h; simpa using h
  | cons i types ih =>
    intro st _
    rw [List.foldl_cons]
    exact ih _ (nodup_set_intersection _ _)

theorem nodup_select (cm : ComponentManager ι C) (types : List ι) : (cm.select types).Nodup :=
  nodup_foldl_select_into cm types ([], true) List.nodup_nil

end ComponentManager

/-- The identifiers returned along a sequence of calls start at the counter and
increase strictly. -/
theorem run_ops_ids {ι : Type} [DecidableEq ι] {C : ι → Type} (ops : List (StoreOp ι C)) :
    ∀ (cm : ComponentManager ι C),
      ((run_ops ops cm).2 = [] ∨ (run_ops ops cm).2.head? = some cm.m_next_entity)
        ∧ (∀ e ∈ (run_ops ops cm).2, cm.m_next_entity ≤ e)
        ∧ (run_ops ops cm).2.Pairwise (fun e1 e2 => e1 < e2) := by
  induction ops with
  | nil => intro cm; simp [run_ops]
  | cons op ops ih =>
    intro cm
    cases op with
    | create =>
      obtain ⟨_, hge, hpw⟩ := ih cm.create_entity.2
      have hnext : cm.create_entity.2.m_next_entity = cm.m_next_entity + 1 := rfl
      have hret : cm.create_entity.1 = cm.m_next_entity := rfl
      have hlt : ∀ e ∈ (run_ops ops cm.create_entity.2).2, cm.m_next_entity < e := by
        intro e he
        have h1 : cm.m_next_entity + 1 ≤ e := hnext ▸ hge e he
        exact Int.lt_of_lt_of_le (Int.lt_succ cm.m_next_entity) h1
      simp only [run_ops, List.head?_cons, List.mem_cons, List.pairwise_cons, hret]
      refine ⟨Or.inr trivial, ?_, hlt, hpw⟩
      rintro e (rfl | he)
      · exact le_refl _
      · exact le_of_lt (hlt e he)
    | add i e c =>
      have h := ih (cm.add_to_entity i e c)
      have hnext : (cm.add_to_entity i e c).m_next_entity = cm.m_next_entity := rfl
      simp only [run_ops]
      rw [hnext] at h
      exact h

/-- The tables after a sequence of calls hold an entry for `(i, e)` exactly when
the store had one before or the sequence adds one. -/
theorem run_ops_get_entity {ι : Type} [DecidableEq ι] {C : ι → Type}
    (ops : List (StoreOp ι C)) (i : ι) (e : Entity) :
    ∀ (cm : ComponentManager ι C),
      ((run_ops ops cm).1.get_entity i e).isSome = true
        ↔ (cm.get_entity i e).isSome = true ∨ ∃ c, StoreOp.add i e c ∈ ops := by
  induction ops with
  | nil => intro cm; simp [run_ops]
  | cons op ops ih =>
    intro cm
    cases op with
    | create =>
      have hsame : cm.create_entity.2.get_entity i e = cm.get_entity i e := rfl
      simp only [run_ops, ih, hsame, List.mem_cons]
      constructor
      · rintro (h3 | ⟨c, hc⟩)
        · exact Or.inl h3
        · exact Or.inr ⟨c, Or.inr hc⟩
      · rintro (h3 | ⟨c, hc | hc⟩)
        · exact Or.inl h3
        · exact StoreOp.noConfusion hc
        · exact Or.inr ⟨c, hc⟩
    | add i0 e0 c0 =>
      simp only [run_ops, ih, List.mem_cons]
      by_cases h : i = i0 ∧ e = e0
      · obtain ⟨hi, he⟩ := h
        subst hi; subst he
        rw [ComponentManager.get_entity_add_same]
        constructor
        · intro _; exact Or.inr ⟨c0, Or.inl rfl⟩
        · intro _; exact Or.inl rfl
      · have h2 : i ≠ i0 ∨ e ≠ e0 := by
          by_cases hi : i = i0
          · exact Or.inr (fun he => h ⟨hi, he⟩)
          · exact Or.inl hi
        rw [ComponentManager.get_entity_add_other cm i0 i e0 e c0 h2]
        constructor
        · rintro (h3 | ⟨c, hc⟩)
          · exact Or.inl h3
          · exact Or.inr ⟨c, Or.inr hc⟩
        · rintro (h3 | ⟨c, hc | hc⟩)
          · exact Or.inl h3
          · exfalso
            injection hc with hi he _
            exact h ⟨hi, he⟩
          · exact Or.inr ⟨c, hc⟩

theorem create_entities_components {ι : Type} {C : ι → Type} (n : Nat) :
    ∀ (cm : ComponentManager ι C), (create_entities n cm).m_components = cm.m_components := by
  induction n with
  | zero => intro cm; rfl
  | succ n ih => intro cm; simp only [create_entities, ih]; rfl

theorem dispatch_pack_traced {S CM : Type} (f : S → CM → CM) (systems : List S) :
    ∀ (cm : CM) (tr : List S),
      SystemManager.dispatch_pack (traced (fun s c => some (f s c))) systems (cm, tr)
        = some (systems.foldl (fun c s => f s c) cm, tr ++ systems) := by
  induction systems with
  | nil => intro cm tr; simp [SystemManager.dispatch_pack]
  | cons s systems ih =>
    intro cm tr
    simp [SystemManager.dispatch_pack, SystemManager.__dispatch, traced, ih]

/-! ## The claims on the engine -/

/-- C1: for every store and every non-empty list of declared component types,
`select` returns a set (no entity twice) that contains an entity exactly when
`get_entity` is present for it in every one of the listed types. -/
theorem C1_select_exact {ι : Type} {C : ι → Type} (cm : ComponentManager ι C)
    (types : List ι) (h : types ≠ []) :
    (cm.select types).Nodup
      ∧ ∀ e : Entity, e ∈ cm.select types ↔ ∀ i ∈ types, (cm.get_entity i e).isSome = true :=
  ⟨ComponentManager.nodup_select cm types, ComponentManager.mem_select_iff cm types h⟩

/-- C1 at the store of the position scenario and the types `Input`, `XY`. -/
theorem C1_select_exact_witness :
    [CompType.Input, CompType.XY] ≠ []
      ∧ ((scenario_input 0 0).select [CompType.Input, CompType.XY]).Nodup
      ∧ ∀ e : Entity, e ∈ (scenario_input 0 0).select [CompType.Input, CompType.XY]
          ↔ ∀ i ∈ [CompType.Input, CompType.XY],
              ((scenario_input 0 0).get_entity i e).isSome = true :=
  ⟨by decide, C1_select_exact (scenario_input 0 0) [CompType.Input, CompType.XY] (by decide)⟩

/-- C2: on a freshly constructed store `get_entity<T>(e)` is empty; after
`add_to_entity<T>(e, v1)` on any store it yields `v1`; after a further
`add_to_entity<T>(e, v2)` it yields `v2`, and so not `v1` when the two differ. -/
theorem C2_get_after_add {ι : Type} [DecidableEq ι] {C : ι → Type} (i : ι) (e : Entity) :
    (ComponentManager.fresh : ComponentManager ι C).get_entity i e = none
      ∧ ∀ (cm : ComponentManager ι C) (v1 v2 : C i),
          (cm.add_to_entity i e v1).get_entity i e = some v1
            ∧ ((cm.add_to_entity i e v1).add_to_entity i e v2).get_entity i e = some v2
            ∧ (v1 ≠ v2 →
                ((cm.add_to_entity i e v1).add_to_entity i e v2).get_entity i e ≠ some v1) := by
  refine ⟨rfl, fun cm v1 v2 => ⟨ComponentManager.get_entity_add_same cm i e v1,
    ComponentManager.get_entity_add_same _ i e v2, fun hne hget => ?_⟩⟩
  rw [ComponentManager.get_entity_add_same] at hget
  exact hne (Option.some.inj hget).symm

/-- C2 at the platformer store: `XY(0,0)` then `XY(1,0)` on entity 0. -/
theorem C2_get_after_add_witness :
    (({ m_x := 0, m_y := 0 } : XYComponent) ≠ { m_x := 1, m_y := 0 })
      ∧ (((ComponentManager.fresh : Store).add_to_entity CompType.XY 0
            { m_x := 0, m_y := 0 }).add_to_entity CompType.XY 0
            { m_x := 1, m_y := 0 }).get_entity CompType.XY 0
          ≠ some { m_x := 0, m_y := 0 } :=
  ⟨by decide,
    ((C2_get_after_add CompType.XY 0).2 (ComponentManager.fresh : Store)
      { m_x := 0, m_y := 0 } { m_x := 1, m_y := 0 }).2.2 (by decide)⟩

/-- C3: for every sequence of `create_entity` and `add_to_entity` calls on a
freshly constructed store, the first identifier that `create_entity` returns is 0,
an identifier returned earlier is strictly smaller than one returned later, and
no identifier is returned twice. -/
theorem C3_create_entity_increasing {ι : Type} [DecidableEq ι] {C : ι → Type}
    (ops : List (StoreOp ι C)) :
    ((run_ops ops ComponentManager.fresh).2 = []
        ∨ (run_ops ops ComponentManager.fresh).2.head? = some 0)
      ∧ (run_ops ops ComponentManager.fresh).2.Pairwise (fun e1 e2 => e1 < e2)
      ∧ (run_ops ops ComponentManager.fresh).2.Nodup := by
  obtain ⟨hhead, _, hpw⟩ := run_ops_ids ops (ComponentManager.fresh : ComponentManager ι C)
  refine ⟨hhead, hpw, ?_⟩
  exact hpw.imp (fun h => ne_of_lt h)

/-- C4: one `dispatch` over the systems `[S1, ..., Sn]`, and one `World::tick()`,
runs every system once in declaration order: the recorded invocations are
`[S1, ..., Sn]` and the store is the initial one after `S1.run`, ..., `Sn.run` in
this order. -/
theorem C4_dispatch_order {S CM : Type} (f : S → CM → CM) (systems : List S) (cm : CM)
    (tr : List S) :
    SystemManager.dispatch (traced (fun s c => some (f s c))) { m_systems := systems } (cm, tr)
        = some (systems.foldl (fun c s => f s c) cm, tr ++ systems)
      ∧ World.tick (traced (fun s c => some (f s c)))
          { m_component_mgr := (cm, tr), m_system_mgr := { m_systems := systems } }
        = some { m_component_mgr := (systems.foldl (fun c s => f s c) cm, tr ++ systems),
                 m_system_mgr := { m_systems := systems } } := by
  constructor
  · exact dispatch_pack_traced f systems cm tr
  · simp [World.tick, SystemManager.dispatch, dispatch_pack_traced]

/-- C6: `add_to_entity<T>(e, v)` leaves `get_entity<T1>(e1)` as it was for every
pair `(e1, T1)` other than `(e, T)` and leaves the counter as it was;
`create_entity` leaves every table as it was; and on a store reached from a fresh
one a lookup of `(e, T)` is present exactly when that pair was added. -/
theorem C6_add_create_frame {ι : Type} [DecidableEq ι] {C : ι → Type}
    (cm : ComponentManager ι C) :
    (∀ (i : ι) (e : Entity) (v : C i) (i1 : ι) (e1 : Entity), (i1 ≠ i ∨ e1 ≠ e) →
        (cm.add_to_entity i e v).get_entity i1 e1 = cm.get_entity i1 e1)
      ∧ (∀ (i : ι) (e : Entity) (v : C i),
          (cm.add_to_entity i e v).m_next_entity = cm.m_next_entity)
      ∧ cm.create_entity.2.m_components = cm.m_components
      ∧ (∀ (ops : List (StoreOp ι C)) (i : ι) (e : Entity),
          ((run_ops ops ComponentManager.fresh).1.get_entity i e).isSome = true
            ↔ ∃ c, StoreOp.add i e c ∈ ops) := by
  refine ⟨fun i e v i1 e1 h => ComponentManager.get_entity_add_other cm i i1 e e1 v h,
    fun _ _ _ => rfl, rfl, fun ops i e => ?_⟩
  rw [run_ops_get_entity]
  simp [ComponentManager.fresh, ComponentManager.get_entity, Table.find]

/-- C6 at the store of the position scenario: adding `XY(5,5)` to entity 1 leaves
the `XY` of entity 0 as it was. -/
theorem C6_add_create_frame_witness :
    (CompType.XY ≠ CompType.XY ∨ (0 : Entity) ≠ 1)
      ∧ ((scenario_input 0 0).add_to_entity CompType.XY 1 { m_x := 5, m_y := 5 }).get_entity
          CompType.XY 0 = (scenario_input 0 0).get_entity CompType.XY 0 :=
  ⟨by decide,
    (C6_add_create_frame (scenario_input 0 0)).1 CompType.XY 1 { m_x := 5, m_y := 5 }
      CompType.XY 0 (by decide)⟩

/-! ## The systems never dereference an absent component -/

theorem SameKeys.refl {ι : Type} {C : ι → Type} (cm : ComponentManager ι C) : SameKeys cm cm :=
  fun _ _ => rfl

theorem SameKeys.trans {ι : Type} {C : ι → Type} {cm cm1 cm2 : ComponentManager ι C}
    (h1 : SameKeys cm cm1) (h2 : SameKeys cm1 cm2) : SameKeys cm cm2 :=
  fun i e => (h2 i e).trans (h1 i e)

theorem SameKeys.write {ι : Type} [DecidableEq ι] {C : ι → Type} (cm : ComponentManager ι C)
    (i : ι) (e : Entity) (c : C i) : SameKeys cm (cm.write i e c) :=
  fun i1 e1 => ComponentManager.get_entity_write_isSome cm i i1 e e1 c

/-- A loop whose body succeeds wherever `P` holds and keeps the keys, on a list
whose entities satisfy `P`, succeeds and keeps the keys. -/
theorem foldlM_sameKeys (body : Store → Entity → Option Store) (P : Store → Entity → Prop)
    (hP : ∀ cm cm1 e, SameKeys cm cm1 → P cm e → P cm1 e)
    (hbody : ∀ cm e, P cm e → ∃ cm1, body cm e = some cm1 ∧ SameKeys cm cm1)
    (l : List Entity) :
    ∀ cm : Store, (∀ e ∈ l, P cm e) → ∃ cm1, l.foldlM body cm = some cm1 ∧ SameKeys cm cm1 := by
  induction l with
  | nil => intro cm _; exact ⟨cm, rfl, SameKeys.refl cm⟩
  | cons a l ih =>
    intro cm hl
    obtain ⟨cm1, h1, hk1⟩ := hbody cm a (hl a (List.mem_cons_self a l))
    obtain ⟨cm2, h2, hk2⟩ :=
      ih cm1 (fun e he => hP cm cm1 e hk1 (hl e (List.mem_cons_of_mem a he)))
    refine ⟨cm2, ?_, hk1.trans hk2⟩
    rw [List.foldlM_cons, h1]
    exact h2

theorem InputSystem.body_ok (dx dy : Int) (cm : Store) (e : Entity)
    (h : (cm.get_entity .XY e).isSome = true) :
    ∃ cm1, InputSystem.body dx dy cm e = some cm1 ∧ SameKeys cm cm1 := by
  obtain ⟨xyc, hx⟩ := Option.isSome_iff_exists.mp h
  refine ⟨_, ?_, SameKeys.write cm .XY e { m_x := xyc.m_x + dx, m_y := xyc.m_y + dy }⟩
  simp [InputSystem.body, hx]

theorem InputSystem.loop_ok (dx dy : Int) (l : List Entity) (cm : Store)
    (h : ∀ e ∈ l, (cm.get_entity .XY e).isSome = true) :
    ∃ cm1, InputSystem.loop dx dy l cm = some cm1 ∧ SameKeys cm cm1 :=
  foldlM_sameKeys (InputSystem.body dx dy) (fun cm e => (cm.get_entity .XY e).isSome = true)
    (fun _ _ e hk hp => (hk .XY e).trans hp)
    (fun cm e hp => InputSystem.body_ok dx dy cm e hp) l cm h

theorem InputSystem.run_delta_ok (dx dy : Int) (cm : Store) :
    ∃ cm1, InputSystem.run_delta dx dy cm = some cm1 ∧ SameKeys cm cm1 := by
  apply InputSystem.loop_ok
  intro e he
  exact (ComponentManager.mem_select_iff cm InputSystem.types (by decide) e).mp he .XY
    (by decide)

theorem CollisionSystem.inner_ok (e other_e : Entity) (cm : Store)
    (hxy : (cm.get_entity .XY other_e).isSome = true)
    (hcc : (cm.get_entity .Collision other_e).isSome = true)
    (he : (cm.get_entity .Collision e).isSome = true) :
    ∃ cm1, CollisionSystem.inner e cm other_e = some cm1 ∧ SameKeys cm cm1 := by
  unfold CollisionSystem.inner
  by_cases hoe : other_e = e
  · exact ⟨cm, by simp [hoe], SameKeys.refl cm⟩
  · obtain ⟨other_xyc, h1⟩ := Option.isSome_iff_exists.mp hxy
    obtain ⟨other_cc, h2⟩ := Option.isSome_iff_exists.mp hcc
    obtain ⟨cc, h3⟩ := Option.isSome_iff_exists.mp he
    simp only [hoe, if_false, h1, h2, h3]
    by_cases hact : cc.m_active = true
    · have hk1 := SameKeys.write cm CompType.Collision other_e
        ({ other_cc with
            m_rect := { other_cc.m_rect with x := other_xyc.m_x, y := other_xyc.m_y } } :
          CollisionComponent)
      have he1 := (hk1 .Collision e).trans he
      obtain ⟨cc1, h4⟩ := Option.isSome_iff_exists.mp he1
      simp only [hact, Bool.not_true, Bool.false_eq_true, if_false, h4]
      split
      · exact ⟨_, rfl, hk1.trans (SameKeys.write _ _ _ _)⟩
      · exact ⟨_, rfl, hk1⟩
    · simp only [Bool.not_eq_true] at hact
      exact ⟨cm, by simp [hact], SameKeys.refl cm⟩

theorem CollisionSystem.inner_loop_ok (e : Entity) (collidables : List Entity) (cm : Store)
    (hall : Collidable collidables cm) (he : (cm.get_entity .Collision e).isSome = true) :
    ∃ cm1, collidables.foldlM (CollisionSystem.inner e) cm = some cm1 ∧ SameKeys cm cm1 :=
  foldlM_sameKeys (CollisionSystem.inner e)
    (fun cm o => (cm.get_entity .XY o).isSome = true
      ∧ (cm.get_entity .Collision o).isSome = true
      ∧ (cm.get_entity .Collision e).isSome = true)
    (fun _ _ o hk hp =>
      ⟨(hk .XY o).trans hp.1, (hk .Collision o).trans hp.2.1, (hk .Collision e).trans hp.2.2⟩)
    (fun cm o hp => CollisionSystem.inner_ok e o cm hp.1 hp.2.1 hp.2.2) collidables cm
    (fun o ho => ⟨(hall o ho).1, (hall o ho).2, he⟩)

theorem Collidable.of_sameKeys {l : List Entity} {cm cm1 : Store} (hk : SameKeys cm cm1)
    (h : Collidable l cm) : Collidable l cm1 :=
  fun o ho => ⟨(hk .XY o).trans (h o ho).1, (hk .Collision o).trans (h o ho).2⟩

theorem CollisionSystem.outer_ok (collidables : List Entity) (cm : Store) (e : Entity)
    (hall : Collidable collidables cm) (he : e ∈ collidables) :
    ∃ cm1, CollisionSystem.outer collidables cm e = some cm1 ∧ SameKeys cm cm1 := by
  unfold CollisionSystem.outer
  obtain ⟨xyc, h1⟩ := Option.isSome_iff_exists.mp (hall e he).1
  obtain ⟨cc, h2⟩ := Option.isSome_iff_exists.mp (hall e he).2
  have key : ∀ c : CollisionComponent,
      ∃ cm2, collidables.foldlM (CollisionSystem.inner e) (cm.write CompType.Collision e c)
          = some cm2 ∧ SameKeys cm cm2 := by
    intro c
    have hk1 := SameKeys.write cm CompType.Collision e c
    obtain ⟨cm2, h3, hk2⟩ := CollisionSystem.inner_loop_ok e collidables _
      (Collidable.of_sameKeys hk1 hall) ((hk1 .Collision e).trans (hall e he).2)
    exact ⟨cm2, h3, hk1.trans hk2⟩
  simp only [h1, h2]
  by_cases hact : cc.m_active = true
  · simp only [hact, Bool.not_true, Bool.false_eq_true, if_false]
    exact key _
  · simp only [Bool.not_eq_true] at hact
    exact ⟨cm, by simp [hact], SameKeys.refl cm⟩

theorem CollisionSystem.run_over_ok (collidables : List Entity) (cm : Store)
    (hall : Collidable collidables cm) :
    ∃ cm1, CollisionSystem.run_over collidables cm = some cm1 ∧ SameKeys cm cm1 :=
  foldlM_sameKeys (CollisionSystem.outer collidables)
    (fun cm e => Collidable collidables cm ∧ e ∈ collidables)
    (fun _ _ _ hk hp => ⟨Collidable.of_sameKeys hk hp.1, hp.2⟩)
    (fun cm e hp => CollisionSystem.outer_ok collidables cm e hp.1 hp.2) collidables cm
    (fun _ he => ⟨hall, he⟩)

theorem CollisionSystem.collidable_select (cm : Store) :
    Collidable (System.select CollisionSystem.types cm) cm := by
  intro e he
  have h := (ComponentManager.mem_select_iff cm CollisionSystem.types (by decide) e).mp he
  exact ⟨h .XY (by decide), h .Collision (by decide)⟩

theorem CollisionSystem.run_ok (cm : Store) :
    ∃ cm1, CollisionSystem.run cm = some cm1 ∧ SameKeys cm cm1 :=
  CollisionSystem.run_over_ok _ cm (CollisionSystem.collidable_select cm)

/-- What the loop of `InputSystem::run` does on a duplicate-free list of entities
that all have an `XY` component: it terminates normally, the `XY` of the listed
entities is moved by the delta, and nothing else changes. -/
theorem InputSystem.loop_spec (dx dy : Int) (l : List Entity) :
    ∀ cm : Store, l.Nodup → (∀ e ∈ l, (cm.get_entity .XY e).isSome = true) →
      ∃ cm1, InputSystem.loop dx dy l cm = some cm1
        ∧ (∀ e1 : Entity, cm1.get_entity .XY e1 =
            if e1 ∈ l then
              (cm.get_entity .XY e1).map
                (fun xyc => ({ m_x := xyc.m_x + dx, m_y := xyc.m_y + dy } : XYComponent))
            else cm.get_entity .XY e1)
        ∧ (∀ i : CompType, i ≠ .XY → cm1.m_components i = cm.m_components i)
        ∧ cm1.m_next_entity = cm.m_next_entity := by
  induction l with
  | nil => intro cm _ _; exact ⟨cm, rfl, by simp, fun _ _ => rfl, rfl⟩
  | cons a l ih =>
    intro cm hnd hpres
    obtain ⟨hal, hnd1⟩ := List.nodup_cons.mp hnd
    obtain ⟨xyc, hx⟩ := Option.isSome_iff_exists.mp (hpres a (List.mem_cons_self a l))
    have hk := SameKeys.write cm CompType.XY a
      ({ m_x := xyc.m_x + dx, m_y := xyc.m_y + dy } : XYComponent)
    obtain ⟨cm1, hloop, hxy, hoth, hcnt⟩ := ih _ hnd1
      (fun e he => (hk .XY e).trans (hpres e (List.mem_cons_of_mem a he)))
    refine ⟨cm1, ?_, ?_, ?_, ?_⟩
    · have hb : InputSystem.body dx dy cm a
          = some (cm.write .XY a { m_x := xyc.m_x + dx, m_y := xyc.m_y + dy }) := by
        simp [InputSystem.body, hx]
      unfold InputSystem.loop at hloop ⊢
      rw [List.foldlM_cons, hb]
      exact hloop
    · intro e1
      rw [hxy e1]
      by_cases hea : e1 = a
      · subst hea
        simp [hal, ComponentManager.get_entity_write_same, hx]
      · have hne : CompType.XY ≠ CompType.XY ∨ e1 ≠ a := Or.inr hea
        rw [ComponentManager.get_entity_write_other cm .XY .XY a e1 _ hne]
        simp [hea]
    · intro i hi
      rw [hoth i hi]
      simp [ComponentManager.write, Function.update_noteq hi]
    · rw [hcnt]; rfl

/-- The position of an entity with `Input` and `XY` after the loops of
`InputSystem::run`. -/
theorem InputSystem.run_delta_spec (dx dy : Int) (cm : Store) (e : Entity) (x y : Int)
    (hin : (cm.get_entity .Input e).isSome = true)
    (hxy : cm.get_entity .XY e = some { m_x := x, m_y := y }) :
    ∃ cm1, InputSystem.run_delta dx dy cm = some cm1
      ∧ cm1.get_entity .XY e = some { m_x := x + dx, m_y := y + dy } := by
  have hsel := ComponentManager.mem_select_iff cm InputSystem.types (by decide)
  obtain ⟨cm1, hrun, hspec, _, _⟩ :=
    InputSystem.loop_spec dx dy (System.select InputSystem.types cm) cm
      (ComponentManager.nodup_select cm InputSystem.types)
      (fun e1 he1 => (hsel e1).mp he1 .XY (by decide))
  refine ⟨cm1, hrun, ?_⟩
  have hmem : e ∈ System.select InputSystem.types cm := by
    apply (hsel e).mpr
    intro i hi
    simp only [InputSystem.types, List.mem_cons, List.mem_singleton, List.not_mem_nil,
      or_false] at hi
    rcases hi with rfl | rfl
    · exact hin
    · rw [hxy]; rfl
  rw [hspec e, if_pos hmem, hxy]
  rfl

/-- C5: on every store and for every non-empty list of declared types, each entity
that the `select` of a system returns has every declared component; and
`InputSystem::run` (for every keyboard state and every delta) and
`CollisionSystem::run`, nested loop included, complete without dereferencing an
absent component. -/
theorem C5_select_guarantees_presence :
    (∀ {ι : Type} [DecidableEq ι] {C : ι → Type} (cm : ComponentManager ι C) (types : List ι),
        types ≠ [] → ∀ e ∈ System.select types cm, ∀ i ∈ types,
          (cm.get_entity i e).isSome = true)
      ∧ (∀ (keys : KeyboardState) (cm : Store), (InputSystem.run keys cm).isSome = true)
      ∧ (∀ (dx dy : Int) (cm : Store), (InputSystem.run_delta dx dy cm).isSome = true)
      ∧ (∀ cm : Store, (CollisionSystem.run cm).isSome = true) := by
  refine ⟨?_, ?_, ?_, ?_⟩
  · intro ι _ C cm types h e he
    exact (ComponentManager.mem_select_iff cm types h e).mp he
  · intro keys cm
    obtain ⟨cm1, h, _⟩ := InputSystem.run_delta_ok
      (key keys SDL_SCANCODE_RIGHT - key keys SDL_SCANCODE_LEFT)
      (key keys SDL_SCANCODE_DOWN - key keys SDL_SCANCODE_UP) cm
    simp [InputSystem.run, h]
  · intro dx dy cm
    obtain ⟨cm1, h, _⟩ := InputSystem.run_delta_ok dx dy cm
    simp [h]
  · intro cm
    obtain ⟨cm1, h, _⟩ := CollisionSystem.run_ok cm
    simp [h]

/-- C5 at the store of the position scenario: entity 0 is selected for `Input`,
`XY` and has its `XY` component. -/
theorem C5_select_guarantees_presence_witness :
    [CompType.Input, CompType.XY] ≠ []
      ∧ (0 : Entity) ∈ System.select [CompType.Input, CompType.XY] (scenario_input 0 0)
      ∧ CompType.XY ∈ [CompType.Input, CompType.XY]
      ∧ ((scenario_input 0 0).get_entity CompType.XY 0).isSome = true :=
  ⟨by decide, by decide, by decide,
    C5_select_guarantees_presence.1 (scenario_input 0 0) [CompType.Input, CompType.XY]
      (by decide) 0 (by decide) CompType.XY (by decide)⟩

/-- C7: `select<A,B>()` and `select<B,A>()` hold the same entities, and for every
two lists of types that are permutations of each other the two results hold the
same entities (each once). -/
theorem C7_select_order_independent {ι : Type} {C : ι → Type} (cm : ComponentManager ι C) :
    (∀ (A B : ι) (e : Entity), e ∈ cm.select [A, B] ↔ e ∈ cm.select [B, A])
      ∧ (∀ types1 types2 : List ι, types1.Perm types2 →
          (∀ e : Entity, e ∈ cm.select types1 ↔ e ∈ cm.select types2)
            ∧ (cm.select types1).Perm (cm.select types2)) := by
  have hperm : ∀ types1 types2 : List ι, types1.Perm types2 →
      ∀ e : Entity, e ∈ cm.select types1 ↔ e ∈ cm.select types2 := by
    intro types1 types2 hp e
    by_cases h1 : types1 = []
    · subst h1
      rw [← hp.nil_eq]
    · have h2 : types2 ≠ [] := fun h => h1 (h ▸ hp).eq_nil
      rw [ComponentManager.mem_select_iff cm types1 h1, ComponentManager.mem_select_iff cm types2 h2]
      exact ⟨fun h i hi => h i (hp.mem_iff.mpr hi), fun h i hi => h i (hp.mem_iff.mp hi)⟩
  refine ⟨fun A B e => hperm [A, B] [B, A] (List.Perm.swap B A []) e, ?_⟩
  intro types1 types2 hp
  refine ⟨hperm types1 types2 hp, ?_⟩
  exact (List.perm_ext_iff_of_nodup (ComponentManager.nodup_select cm types1)
    (ComponentManager.nodup_select cm types2)).mpr (hperm types1 types2 hp)

/-- C7 at the store of the position scenario, for `[Input, XY, Collision]` and
`[Collision, Input, XY]`. -/
theorem C7_select_order_independent_witness :
    [CompType.Input, CompType.XY, CompType.Collision].Perm
        [CompType.Collision, CompType.Input, CompType.XY]
      ∧ ((scenario_input 0 0).select [CompType.Input, CompType.XY, CompType.Collision]).Perm
          ((scenario_input 0 0).select [CompType.Collision, CompType.Input, CompType.XY]) :=
  ⟨by decide,
    ((C7_select_order_independent (scenario_input 0 0)).2 _ _ (by decide)).2⟩

/-- C8: for every store, every non-empty list of types and every further type `T`,
the result of `select` over the list extended by `T` is contained in the result
over the list; in particular `select<T1,T2>()` is contained in `select<T1>()`. -/
theorem C8_select_shrinks {ι : Type} {C : ι → Type} (cm : ComponentManager ι C) :
    (∀ (types : List ι) (T : ι), types ≠ [] → cm.select (types ++ [T]) ⊆ cm.select types)
      ∧ (∀ T1 T2 : ι, cm.select [T1, T2] ⊆ cm.select [T1]) := by
  have hgen : ∀ (types : List ι) (T : ι), types ≠ [] →
      cm.select (types ++ [T]) ⊆ cm.select types := by
    intro types T h e he
    rw [ComponentManager.mem_select_iff cm _ (by simp)] at he
    rw [ComponentManager.mem_select_iff cm types h]
    exact fun i hi => he i (List.mem_append_left _ hi)
  exact ⟨hgen, fun T1 T2 => hgen [T1] T2 (by simp)⟩

/-- C8 at the store of the position scenario: `select<XY, Collision>()` is
contained in `select<XY>()`. -/
theorem C8_select_shrinks_witness :
    [CompType.XY] ≠ []
      ∧ (scenario_input 0 0).select ([CompType.XY] ++ [CompType.Collision])
          ⊆ (scenario_input 0 0).select [CompType.XY] :=
  ⟨by decide, (C8_select_shrinks (scenario_input 0 0)).1 [CompType.XY] CompType.Collision
    (by decide)⟩

/-- C9: when the table of one of the queried types is empty, `select` returns the
empty set; in particular, on a store with the component types `A`, `B`, `C` that
is fresh or has only seen `create_entity` calls, `select<A,B>()` is empty. -/
theorem C9_select_empty_table {ι : Type} {C : ι → Type} :
    (∀ (cm : ComponentManager ι C) (types : List ι) (i : ι), i ∈ types →
        cm.m_components i = [] → cm.select types = [])
      ∧ (∀ (n : Nat) (types : List ι), types ≠ [] →
          (create_entities n (ComponentManager.fresh : ComponentManager ι C)).select types = [])
      ∧ (∀ (D : ABC → Type) (n : Nat),
          (create_entities n (ComponentManager.fresh : ComponentManager ABC D)).select
            [ABC.A, ABC.B] = []) := by
  have hgen : ∀ (cm : ComponentManager ι C) (types : List ι) (i : ι), i ∈ types →
      cm.m_components i = [] → cm.select types = [] := by
    intro cm types i hi hempty
    apply List.eq_nil_iff_forall_not_mem.mpr
    intro e he
    have h := (ComponentManager.mem_select_iff cm types (List.ne_nil_of_mem hi) e).mp he i hi
    simp [ComponentManager.get_entity, hempty, Table.find] at h
  refine ⟨hgen, ?_, ?_⟩
  · intro n types h
    obtain ⟨i, hi⟩ := List.exists_mem_of_ne_nil types h
    exact hgen _ types i hi (by rw [create_entities_components]; rfl)
  · intro D n
    apply List.eq_nil_iff_forall_not_mem.mpr
    intro e he
    have h := (ComponentManager.mem_select_iff _ [ABC.A, ABC.B] (by simp) e).mp he ABC.A
      (by simp)
    simp [ComponentManager.get_entity, create_entities_components, ComponentManager.fresh,
      Table.find] at h

/-- C9 at the platformer store after `XY(0,0)` and `Input` were added to entity 0:
the `Collision` table is empty, so `select<XY, Collision>()` is empty. -/
theorem C9_select_empty_table_witness :
    CompType.Collision ∈ [CompType.XY, CompType.Collision]
      ∧ (scenario_input 0 0).m_components CompType.Collision = []
      ∧ (scenario_input 0 0).select [CompType.XY, CompType.Collision] = [] :=
  ⟨by decide, by decide,
    C9_select_empty_table.1 (scenario_input 0 0) [CompType.XY, CompType.Collision]
      CompType.Collision (by decide) (by decide)⟩

/-- C10: for every store, every entity that has an `Input` component and the `XY`
component `(x, y)`, and every delta `(dx, dy)`, one `InputSystem::run` with that
delta completes and leaves the `XY` of the entity at `(x + dx, y + dy)`; so does a
run for a keyboard state, whose delta is `(right - left, down - up)`; from
`XY(0,0)` a run with `(1,0)` gives `(1,0)` and a following run with `(0,-1)` gives
`(1,-1)`. -/
theorem C10_input_integrates (cm : Store) (e : Entity) (x y : Int)
    (hin : (cm.get_entity .Input e).isSome = true)
    (hxy : cm.get_entity .XY e = some { m_x := x, m_y := y }) :
    (∀ dx dy : Int, ∃ cm1, InputSystem.run_delta dx dy cm = some cm1
        ∧ cm1.get_entity .XY e = some { m_x := x + dx, m_y := y + dy })
      ∧ (∀ keys : KeyboardState, ∃ cm1, InputSystem.run keys cm = some cm1
        ∧ cm1.get_entity .XY e
          = some { m_x := x + (key keys SDL_SCANCODE_RIGHT - key keys SDL_SCANCODE_LEFT),
                   m_y := y + (key keys SDL_SCANCODE_DOWN - key keys SDL_SCANCODE_UP) })
      ∧ (InputSystem.run_delta 1 0 (scenario_input 0 0)).bind
          (fun cm1 => cm1.get_entity .XY 0) = some { m_x := 1, m_y := 0 }
      ∧ ((InputSystem.run_delta 1 0 (scenario_input 0 0)).bind
          (InputSystem.run_delta 0 (-1))).bind
          (fun cm2 => cm2.get_entity .XY 0) = some { m_x := 1, m_y := -1 } := by
  refine ⟨fun dx dy => InputSystem.run_delta_spec dx dy cm e x y hin hxy,
    fun keys => InputSystem.run_delta_spec _ _ cm e x y hin hxy, by decide, by decide⟩

/-- C10 at the store of the position scenario with `XY(3,4)`, entity 0. -/
theorem C10_input_integrates_witness :
    ((scenario_input 3 4).get_entity CompType.Input 0).isSome = true
      ∧ (scenario_input 3 4).get_entity CompType.XY 0 = some { m_x := 3, m_y := 4 }
      ∧ ∃ cm1, InputSystem.run_delta 2 (-7) (scenario_input 3 4) = some cm1
          ∧ cm1.get_entity CompType.XY 0 = some { m_x := 3 + 2, m_y := 4 + -7 } :=
  ⟨by decide, by decide,
    (C10_input_integrates (scenario_input 3 4) 0 3 4 (by decide) (by decide)).1 2 (-7)⟩

/-! ## The systems keep the shape of the store -/

theorem Table.keys_write {C : Type} (t : Table C) (e : Entity) (c : C) :
    (t.write e c).keys = t.keys := by
  induction t with
  | nil => rfl
  | cons a t ih =>
    obtain ⟨k, c0⟩ := a
    by_cases hk : k = e
    · simp [Table.write, Table.keys, hk]
    · have ih1 : List.map Prod.fst (Table.write t e c) = List.map Prod.fst t := ih
      simp [Table.write, Table.keys, hk, ih1]

theorem Table.find_isSome_iff_mem_keys {C : Type} (t : Table C) (e : Entity) :
    (t.find e).isSome = true ↔ e ∈ t.keys := by
  induction t with
  | nil => simp [Table.find, Table.keys]
  | cons a t ih =>
    obtain ⟨k, c0⟩ := a
    have ih1 : (Table.find t e).isSome = true ↔ e ∈ List.map Prod.fst t := ih
    by_cases hk : k = e
    · subst hk; simp [Table.find, Table.keys]
    · have hk2 : ¬ e = k := fun h => hk h.symm
      simp [Table.find, Table.keys, hk, hk2, ih1]

theorem SameShape.shape_refl {ι : Type} {C : ι → Type} (cm : ComponentManager ι C) :
    SameShape cm cm :=
  ⟨fun _ => rfl, rfl⟩

theorem SameShape.shape_trans {ι : Type} {C : ι → Type} {cm cm1 cm2 : ComponentManager ι C}
    (h1 : SameShape cm cm1) (h2 : SameShape cm1 cm2) : SameShape cm cm2 :=
  ⟨fun i => (h2.1 i).trans (h1.1 i), h2.2.trans h1.2⟩

theorem SameShape.shape_write {ι : Type} [DecidableEq ι] {C : ι → Type} (cm : ComponentManager ι C)
    (i : ι) (e : Entity) (c : C i) : SameShape cm (cm.write i e c) := by
  refine ⟨fun j => ?_, rfl⟩
  by_cases hj : j = i
  · subst hj
    simp [ComponentManager.write, Table.keys_write]
  · simp [ComponentManager.write, Function.update_noteq hj]

/-- The key set of a table depends on the keys of its entries only. -/
theorem ComponentManager.__select_eq_keys {ι : Type} {C : ι → Type}
    (cm : ComponentManager ι C) (i : ι) :
    cm.__select i = (cm.m_components i).keys.foldl (fun results k => USet.insert results k) [] := by
  unfold ComponentManager.__select Table.keys
  rw [List.foldl_map]

/-- Stores of the same shape answer every query alike. -/
theorem SameShape.select_eq {ι : Type} {C : ι → Type} {cm cm1 : ComponentManager ι C}
    (h : SameShape cm cm1) (types : List ι) : cm1.select types = cm.select types := by
  have hsel : ∀ i, cm1.__select i = cm.__select i := by
    intro i
    rw [ComponentManager.__select_eq_keys, ComponentManager.__select_eq_keys, h.1 i]
  have hinto : cm1.__select_into = cm.__select_into := by
    funext st i
    simp [ComponentManager.__select_into, hsel]
  unfold ComponentManager.select
  rw [hinto]

/-- A relation that every successful step of the body establishes, and that is
reflexive and transitive, holds between the start and the end of the loop. -/
theorem foldlM_rel (body : Store → Entity → Option Store) (R : Store → Store → Prop)
    (hrefl : ∀ cm, R cm cm) (htrans : ∀ cm cm1 cm2, R cm cm1 → R cm1 cm2 → R cm cm2)
    (hbody : ∀ cm e cm1, body cm e = some cm1 → R cm cm1) (l : List Entity) :
    ∀ cm cm1 : Store, l.foldlM body cm = some cm1 → R cm cm1 := by
  induction l with
  | nil =>
    intro cm cm1 h
    simp only [List.foldlM_nil] at h
    cases h
    exact hrefl cm
  | cons a l ih =>
    intro cm cm1 h
    rw [List.foldlM_cons] at h
    cases hb : body cm a with
    | none => rw [hb] at h; cases h
    | some cm0 =>
      rw [hb] at h
      exact htrans cm cm0 cm1 (hbody cm a cm0 hb) (ih cm0 cm1 h)

theorem InputSystem.body_shape (dx dy : Int) (cm : Store) (e : Entity) (cm1 : Store)
    (h : InputSystem.body dx dy cm e = some cm1) : SameShape cm cm1 := by
  unfold InputSystem.body at h
  cases hx : cm.get_entity .XY e with
  | none => rw [hx] at h; cases h
  | some xyc =>
    rw [hx] at h
    cases h
    exact SameShape.shape_write cm _ _ _

theorem InputSystem.run_delta_shape (dx dy : Int) (cm cm1 : Store)
    (h : InputSystem.run_delta dx dy cm = some cm1) : SameShape cm cm1 :=
  foldlM_rel (InputSystem.body dx dy) SameShape SameShape.shape_refl
    (fun _ _ _ h1 h2 => h1.shape_trans h2) (InputSystem.body_shape dx dy) _ cm cm1 h

theorem CollisionSystem.inner_shape (e : Entity) (cm : Store) (o : Entity) (cm1 : Store)
    (h : CollisionSystem.inner e cm o = some cm1) : SameShape cm cm1 := by
  unfold CollisionSystem.inner at h
  split at h
  · cases h; exact SameShape.shape_refl cm
  · split at h
    · split at h
      · cases h; exact SameShape.shape_refl cm
      · dsimp only at h
        split at h
        · split at h
          · cases h
            exact (SameShape.shape_write cm _ _ _).shape_trans (SameShape.shape_write _ _ _ _)
          · cases h
            exact SameShape.shape_write cm _ _ _
        · cases h
    · cases h

theorem CollisionSystem.outer_shape (l : List Entity) (cm : Store) (e : Entity) (cm1 : Store)
    (h : CollisionSystem.outer l cm e = some cm1) : SameShape cm cm1 := by
  unfold CollisionSystem.outer at h
  split at h
  · split at h
    · cases h; exact SameShape.shape_refl cm
    · dsimp only at h
      exact (SameShape.shape_write cm _ _ _).shape_trans
        (foldlM_rel (CollisionSystem.inner e) SameShape SameShape.shape_refl
          (fun _ _ _ h1 h2 => h1.shape_trans h2) (CollisionSystem.inner_shape e) l _ cm1 h)
  · cases h

theorem CollisionSystem.run_over_shape (l : List Entity) (cm cm1 : Store)
    (h : CollisionSystem.run_over l cm = some cm1) : SameShape cm cm1 :=
  foldlM_rel (CollisionSystem.outer l) SameShape SameShape.shape_refl
    (fun _ _ _ h1 h2 => h1.shape_trans h2) (CollisionSystem.outer_shape l) l cm cm1 h

/-- Each of the two systems completes and keeps the shape of the store. -/
theorem GameSystem.run_shape (keys : KeyboardState) (s : GameSystem) (cm : Store) :
    ∃ cm1, GameSystem.run keys s cm = some cm1 ∧ SameShape cm cm1 := by
  cases s with
  | input =>
    obtain ⟨cm1, h, _⟩ := InputSystem.run_delta_ok
      (key keys SDL_SCANCODE_RIGHT - key keys SDL_SCANCODE_LEFT)
      (key keys SDL_SCANCODE_DOWN - key keys SDL_SCANCODE_UP) cm
    exact ⟨cm1, h, InputSystem.run_delta_shape _ _ cm cm1 h⟩
  | collision =>
    obtain ⟨cm1, h, _⟩ := CollisionSystem.run_ok cm
    exact ⟨cm1, h, CollisionSystem.run_over_shape _ cm cm1 h⟩

theorem GameSystem.dispatch_shape (keys : KeyboardState) (systems : List GameSystem) :
    ∀ cm : Store, ∃ cm1,
      SystemManager.dispatch_pack (GameSystem.run keys) systems cm = some cm1
        ∧ SameShape cm cm1 := by
  induction systems with
  | nil => intro cm; exact ⟨cm, rfl, SameShape.shape_refl cm⟩
  | cons s systems ih =>
    intro cm
    obtain ⟨cm0, h0, hs0⟩ := GameSystem.run_shape keys s cm
    obtain ⟨cm1, h1, hs1⟩ := ih cm0
    refine ⟨cm1, ?_, hs0.shape_trans hs1⟩
    simp [SystemManager.dispatch_pack, SystemManager.__dispatch, h0, h1]

theorem run_ticks_shape (frames : List KeyboardState) :
    ∀ w : World GameSystem Store, ∃ w1, run_ticks frames w = some w1
      ∧ w1.m_system_mgr = w.m_system_mgr
      ∧ SameShape w.m_component_mgr w1.m_component_mgr := by
  induction frames with
  | nil => intro w; exact ⟨w, rfl, rfl, SameShape.shape_refl _⟩
  | cons keys frames ih =>
    intro w
    obtain ⟨cm0, h0, hs0⟩ :=
      GameSystem.dispatch_shape keys w.m_system_mgr.m_systems w.m_component_mgr
    obtain ⟨w1, h1, hsys, hs1⟩ := ih { w with m_component_mgr := cm0 }
    refine ⟨w1, ?_, hsys, hs0.shape_trans hs1⟩
    simp [run_ticks, World.tick, SystemManager.dispatch, h0, h1]

/-! ## Stores reached with issued identifiers only -/

theorem issued_only_bounds {ι : Type} [DecidableEq ι] {C : ι → Type}
    (ops : List (StoreOp ι C)) :
    ∀ (issued : List Entity) (cm : ComponentManager ι C),
      (∀ e ∈ issued, 0 ≤ e ∧ e < cm.m_next_entity) →
      (∀ i e, (cm.get_entity i e).isSome = true → 0 ≤ e ∧ e < cm.m_next_entity) →
      0 ≤ cm.m_next_entity →
      issued_only issued cm ops = true →
      ∀ i e, ((run_ops ops cm).1.get_entity i e).isSome = true →
        0 ≤ e ∧ e < (run_ops ops cm).1.m_next_entity := by
  induction ops with
  | nil => intro issued cm _ hk _ _ i e h; exact hk i e h
  | cons op ops ih =>
    intro issued cm hiss hk hpos hwf
    cases op with
    | create =>
      have hnext : cm.create_entity.2.m_next_entity = cm.m_next_entity + 1 := rfl
      have hlt : cm.m_next_entity < cm.m_next_entity + 1 := Int.lt_succ _
      simp only [run_ops]
      apply ih (cm.create_entity.1 :: issued) cm.create_entity.2
      · intro e he
        rw [hnext]
        rcases List.mem_cons.mp he with rfl | he
        · exact ⟨hpos, hlt⟩
        · exact ⟨(hiss e he).1, lt_trans (hiss e he).2 hlt⟩
      · intro i e he
        rw [hnext]
        have := hk i e he
        exact ⟨this.1, lt_trans this.2 hlt⟩
      · rw [hnext]; exact le_of_lt (lt_of_le_of_lt hpos hlt)
      · exact hwf
    | add i0 e0 c0 =>
      simp only [issued_only, Bool.and_eq_true, decide_eq_true_eq] at hwf
      obtain ⟨hmem, hrest⟩ := hwf
      simp only [run_ops]
      apply ih issued (cm.add_to_entity i0 e0 c0)
      · exact hiss
      · intro i e he
        by_cases h : i = i0 ∧ e = e0
        · obtain ⟨_, rfl⟩ := h
          exact hiss e hmem
        · have h2 : i ≠ i0 ∨ e ≠ e0 := by
            by_cases hi : i = i0
            · exact Or.inr (fun he => h ⟨hi, he⟩)
            · exact Or.inl hi
          rw [ComponentManager.get_entity_add_other cm i0 i e0 e c0 h2] at he
          exact hk i e he
      · exact hpos
      · exact hrest

/-! ## What `CollisionSystem::run` computes -/

theorem Frame.frame_refl (cm : Store) : Frame cm cm :=
  ⟨fun _ _ => rfl, rfl⟩

theorem Frame.frame_trans {cm cm1 cm2 : Store} (h1 : Frame cm cm1) (h2 : Frame cm1 cm2) :
    Frame cm cm2 :=
  ⟨fun i hi => (h2.1 i hi).trans (h1.1 i hi), h2.2.trans h1.2⟩

theorem Frame.frame_write (cm : Store) (e : Entity) (c : CollisionComponent) :
    Frame cm (cm.write CompType.Collision e c) := by
  refine ⟨fun i hi => ?_, rfl⟩
  simp [ComponentManager.write, Function.update_noteq hi]

theorem Frame.xy {cm cm1 : Store} (h : Frame cm cm1) (x : Entity) :
    cm1.get_entity .XY x = cm.get_entity .XY x := by
  unfold ComponentManager.get_entity
  rw [h.1 CompType.XY (by decide)]

theorem relocate_of_xy (cm : Store) (x : Entity) (c : CollisionComponent) (xy : XYComponent)
    (h : cm.get_entity .XY x = some xy) :
    relocate cm x c = { c with m_rect := moved c xy } := by
  simp [relocate, h]

theorem relocate_active (cm : Store) (x : Entity) (c : CollisionComponent) :
    (relocate cm x c).m_active = c.m_active := by
  unfold relocate; split <;> rfl

theorem relocate_colliding (cm : Store) (x : Entity) (c : CollisionComponent) :
    (relocate cm x c).m_colliding = c.m_colliding := by
  unfold relocate; split <;> rfl

theorem relocate_w (cm : Store) (x : Entity) (c : CollisionComponent) :
    (relocate cm x c).m_rect.w = c.m_rect.w := by
  unfold relocate; split <;> rfl

theorem relocate_h (cm : Store) (x : Entity) (c : CollisionComponent) :
    (relocate cm x c).m_rect.h = c.m_rect.h := by
  unfold relocate; split <;> rfl

/-- The moved rectangle depends on the size of the rectangle only. -/
theorem moved_congr (c c1 : CollisionComponent) (xy : XYComponent)
    (hw : c1.m_rect.w = c.m_rect.w) (hh : c1.m_rect.h = c.m_rect.h) :
    moved c1 xy = moved c xy := by
  simp [moved, hw, hh]

theorem CollisionSystem.inner_self (e : Entity) (cm : Store) :
    CollisionSystem.inner e cm e = some cm := by
  simp [CollisionSystem.inner]

theorem collision_write_same (cm : Store) (e : Entity) (c c0 : CollisionComponent)
    (h : cm.get_entity .Collision e = some c0) :
    (cm.write CompType.Collision e c).get_entity .Collision e = some c := by
  rw [ComponentManager.get_entity_write_same, h]; rfl

theorem collision_write_other (cm : Store) (e x : Entity) (c : CollisionComponent)
    (h : x ≠ e) :
    (cm.write CompType.Collision e c).get_entity .Collision x = cm.get_entity .Collision x :=
  ComponentManager.get_entity_write_other cm .Collision .Collision e x c (Or.inr h)

/-- One step of the inner loop for another entity, the entity of the outer loop
being active: the store it returns. -/
theorem CollisionSystem.inner_eq (e o : Entity) (cm : Store) (oxy : XYComponent)
    (oc cc : CollisionComponent) (hne : o ≠ e)
    (h1 : cm.get_entity .XY o = some oxy) (h2 : cm.get_entity .Collision o = some oc)
    (h3 : cm.get_entity .Collision e = some cc) (hact : cc.m_active = true) :
    CollisionSystem.inner e cm o = some
      (if CollisionSystem.test_collision cc.m_rect (moved oc oxy) = true then
        (cm.write CompType.Collision o { oc with m_rect := moved oc oxy }).write
          CompType.Collision e { cc with m_colliding := USet.insert cc.m_colliding o }
      else cm.write CompType.Collision o { oc with m_rect := moved oc oxy }) := by
  have hna : (!cc.m_active) = false := by rw [hact]; rfl
  have hoc : ∀ c : CollisionComponent,
      (cm.write CompType.Collision o c).get_entity .Collision e = some cc := by
    intro c
    rw [collision_write_other cm o e c (fun h => hne h.symm)]
    exact h3
  unfold CollisionSystem.inner
  simp only [hne, if_false, h1, h2, h3, hna, Bool.false_eq_true, hoc]
  by_cases ht : CollisionSystem.test_collision cc.m_rect (moved oc oxy) = true
  · have ht1 : CollisionSystem.test_collision cc.m_rect
        { x := oxy.m_x, y := oxy.m_y, w := oc.m_rect.w, h := oc.m_rect.h } = true := ht
    rw [if_pos ht, if_pos ht1]
    rfl
  · have ht1 : ¬ CollisionSystem.test_collision cc.m_rect
        { x := oxy.m_x, y := oxy.m_y, w := oc.m_rect.w, h := oc.m_rect.h } = true := ht
    rw [if_neg ht, if_neg ht1]
    rfl

/-- One step of the inner loop for another entity, the entity of the outer loop
being active: what the store it returns holds. -/
theorem CollisionSystem.inner_view (e o : Entity) (cm : Store) (oxy : XYComponent)
    (oc cc : CollisionComponent) (hne : o ≠ e)
    (h1 : cm.get_entity .XY o = some oxy) (h2 : cm.get_entity .Collision o = some oc)
    (h3 : cm.get_entity .Collision e = some cc) (hact : cc.m_active = true) :
    ∃ cm1, CollisionSystem.inner e cm o = some cm1 ∧ Frame cm cm1
      ∧ cm1.get_entity .Collision o = some { oc with m_rect := moved oc oxy }
      ∧ cm1.get_entity .Collision e = some
          { cc with m_colliding :=
              if CollisionSystem.test_collision cc.m_rect (moved oc oxy) = true then
                USet.insert cc.m_colliding o
              else cc.m_colliding }
      ∧ ∀ x : Entity, x ≠ e → x ≠ o →
          cm1.get_entity .Collision x = cm.get_entity .Collision x := by
  have hne2 : e ≠ o := fun h => hne h.symm
  refine ⟨_, CollisionSystem.inner_eq e o cm oxy oc cc hne h1 h2 h3 hact, ?_⟩
  have hoo := collision_write_same cm o
    ({ oc with m_rect := moved oc oxy } : CollisionComponent) oc h2
  have hoe : (cm.write CompType.Collision o
      ({ oc with m_rect := moved oc oxy } : CollisionComponent)).get_entity .Collision e
        = some cc := by
    rw [collision_write_other cm o e _ hne2]; exact h3
  by_cases ht : CollisionSystem.test_collision cc.m_rect (moved oc oxy) = true
  · simp only [if_pos ht]
    refine ⟨(Frame.frame_write cm o _).frame_trans (Frame.frame_write _ e _), ?_, ?_, ?_⟩
    · rw [collision_write_other _ e o _ hne]
      exact hoo
    · exact collision_write_same _ e _ cc hoe
    · intro x hxe hxo
      rw [collision_write_other _ e x _ hxe, collision_write_other _ o x _ hxo]
  · simp only [if_neg ht]
    refine ⟨Frame.frame_write cm o _, hoo, ?_, ?_⟩
    · rw [hoe]
    · intro x _ hxo
      rw [collision_write_other _ o x _ hxo]

theorem hits_of_some (cm : Store) (r : SDL_Rect) (o : Entity) (oxy : XYComponent)
    (oc : CollisionComponent) (h1 : cm.get_entity .XY o = some oxy)
    (h2 : cm.get_entity .Collision o = some oc) :
    hits cm r o = CollisionSystem.test_collision r (moved oc oxy) := by
  simp [hits, h1, h2]

/-- The inner loop keeps its invariant: from the state after the entities `D` it
completes over `rest` in the state after `D ++ rest`. -/
theorem CollisionSystem.inner_loop_inv (e : Entity) (cm : Store) (cc : CollisionComponent)
    (hact : cc.m_active = true) (rest : List Entity) :
    ∀ (D : List Entity) (cm0 : Store), InnerInv cm e cc D cm0 →
      (∀ o ∈ rest, (cm.get_entity .XY o).isSome = true
        ∧ (cm.get_entity .Collision o).isSome = true) →
      ∃ cm1, rest.foldlM (CollisionSystem.inner e) cm0 = some cm1
        ∧ InnerInv cm e cc (D ++ rest) cm1 := by
  induction rest with
  | nil =>
    intro D cm0 hinv _
    exact ⟨cm0, rfl, by simpa using hinv⟩
  | cons a rest ih =>
    intro D cm0 hinv hpres
    have hpres1 : ∀ o ∈ rest, (cm.get_entity .XY o).isSome = true
        ∧ (cm.get_entity .Collision o).isSome = true :=
      fun o ho => hpres o (List.mem_cons_of_mem a ho)
    have hmemD : ∀ y : Entity, y ∈ D ++ [a] ↔ y ∈ D ∨ y = a := by
      intro y; simp [List.mem_append]
    obtain ⟨hF, ⟨cc0, hGe, hrect, hactive, hnd, hmem⟩, hview⟩ := hinv
    by_cases hae : a = e
    · have hstep : InnerInv cm e cc (D ++ [a]) cm0 := by
        refine ⟨hF, ⟨cc0, hGe, hrect, hactive, hnd, ?_⟩, ?_⟩
        · intro y
          rw [hmem y, hmemD y]
          constructor
          · rintro (h | ⟨hD, hne, hh⟩)
            · exact Or.inl h
            · exact Or.inr ⟨Or.inl hD, hne, hh⟩
          · rintro (h | ⟨hD | hya, hne, hh⟩)
            · exact Or.inl h
            · exact Or.inr ⟨hD, hne, hh⟩
            · exact absurd (hya.trans hae) hne
        · intro x hx
          rw [hview x hx]
          have hxa : x ≠ a := fun h => hx (h.trans hae)
          by_cases hxD : x ∈ D
          · rw [if_pos hxD, if_pos ((hmemD x).mpr (Or.inl hxD))]
          · rw [if_neg hxD, if_neg (fun h => ((hmemD x).mp h).elim hxD hxa)]
      obtain ⟨cm1, h1, hinv1⟩ := ih (D ++ [a]) cm0 hstep hpres1
      refine ⟨cm1, ?_, by simpa [List.append_assoc] using hinv1⟩
      rw [List.foldlM_cons, hae, CollisionSystem.inner_self]
      exact h1
    · obtain ⟨oxy, hxy⟩ := Option.isSome_iff_exists.mp (hpres a (List.mem_cons_self a rest)).1
      obtain ⟨oc, hoc⟩ := Option.isSome_iff_exists.mp (hpres a (List.mem_cons_self a rest)).2
      have hxy0 : cm0.get_entity .XY a = some oxy := (hF.xy a).trans hxy
      have hreloc : relocate cm a oc = { oc with m_rect := moved oc oxy } :=
        relocate_of_xy cm a oc oxy hxy
      have hGa : ∃ oc0 : CollisionComponent, cm0.get_entity .Collision a = some oc0
          ∧ ({ oc0 with m_rect := moved oc0 oxy } : CollisionComponent) = relocate cm a oc
          ∧ moved oc0 oxy = moved oc oxy := by
        rw [hview a hae, hoc]
        by_cases haD : a ∈ D
        · rw [if_pos haD]
          refine ⟨relocate cm a oc, rfl, ?_, ?_⟩
          · rw [hreloc]; rfl
          · rw [hreloc]; rfl
        · rw [if_neg haD]
          exact ⟨oc, rfl, hreloc.symm, rfl⟩
      obtain ⟨oc0, hoc0, hreloc0, hmoved⟩ := hGa
      obtain ⟨cm2, hstep, hF2, hG2a, hG2e, hG2x⟩ :=
        CollisionSystem.inner_view e a cm0 oxy oc0 cc0 hae hxy0 hoc0 hGe (hactive.trans hact)
      have hhit : CollisionSystem.test_collision cc0.m_rect (moved oc0 oxy)
          = hits cm cc.m_rect a := by
        rw [hrect, hmoved, hits_of_some cm cc.m_rect a oxy oc hxy hoc]
      have hinv2 : InnerInv cm e cc (D ++ [a]) cm2 := by
        refine ⟨hF.frame_trans hF2, ⟨_, hG2e, hrect, hactive, ?_, ?_⟩, ?_⟩
        · intro h
          show (if CollisionSystem.test_collision cc0.m_rect (moved oc0 oxy) = true then
            USet.insert cc0.m_colliding a else cc0.m_colliding).Nodup
          split
          · exact USet.nodup_insert _ _ (hnd h)
          · exact hnd h
        · intro y
          show y ∈ (if CollisionSystem.test_collision cc0.m_rect (moved oc0 oxy) = true then
            USet.insert cc0.m_colliding a else cc0.m_colliding) ↔ _
          rw [hhit, hmemD y]
          by_cases ht : hits cm cc.m_rect a = true
          · rw [if_pos ht, USet.mem_insert, hmem y]
            constructor
            · rintro ((h | ⟨hD, hne, hh⟩) | hya)
              · exact Or.inl h
              · exact Or.inr ⟨Or.inl hD, hne, hh⟩
              · exact Or.inr ⟨Or.inr hya, hya ▸ hae, hya ▸ ht⟩
            · rintro (h | ⟨hD | hya, hne, hh⟩)
              · exact Or.inl (Or.inl h)
              · exact Or.inl (Or.inr ⟨hD, hne, hh⟩)
              · exact Or.inr hya
          · rw [if_neg ht, hmem y]
            constructor
            · rintro (h | ⟨hD, hne, hh⟩)
              · exact Or.inl h
              · exact Or.inr ⟨Or.inl hD, hne, hh⟩
            · rintro (h | ⟨hD | hya, hne, hh⟩)
              · exact Or.inl h
              · exact Or.inr ⟨hD, hne, hh⟩
              · exact absurd (hya ▸ hh) ht
        · intro x hx
          by_cases hxa : x = a
          · rw [hxa, if_pos ((hmemD a).mpr (Or.inr rfl)), hG2a, hoc, hreloc0]
            rfl
          · rw [hG2x x hx hxa, hview x hx]
            by_cases hxD : x ∈ D
            · rw [if_pos hxD, if_pos ((hmemD x).mpr (Or.inl hxD))]
            · rw [if_neg hxD, if_neg (fun h => ((hmemD x).mp h).elim hxD hxa)]
      obtain ⟨cm1, h1, hinv1⟩ := ih (D ++ [a]) cm2 hinv2 hpres1
      refine ⟨cm1, ?_, by simpa [List.append_assoc] using hinv1⟩
      rw [List.foldlM_cons, hstep]
      exact h1

theorem CollisionSystem.outer_inactive (l : List Entity) (cm : Store) (e : Entity)
    (xy : XYComponent) (cc : CollisionComponent) (hxy : cm.get_entity .XY e = some xy)
    (hcc : cm.get_entity .Collision e = some cc) (hact : cc.m_active = false) :
    CollisionSystem.outer l cm e = some cm := by
  unfold CollisionSystem.outer
  simp [hxy, hcc, hact]

/-- One step of the outer loop for an active entity: what the store it returns
holds. -/
theorem CollisionSystem.outer_view (l : List Entity) (cm : Store) (e : Entity)
    (xy : XYComponent) (cc : CollisionComponent) (hall : Collidable l cm)
    (hxy : cm.get_entity .XY e = some xy) (hcc : cm.get_entity .Collision e = some cc)
    (hact : cc.m_active = true) :
    ∃ cm1, CollisionSystem.outer l cm e = some cm1 ∧ Frame cm cm1
      ∧ (∃ cc1 : CollisionComponent, cm1.get_entity .Collision e = some cc1
          ∧ cc1.m_rect = moved cc xy ∧ cc1.m_active = true ∧ cc1.m_colliding.Nodup
          ∧ ∀ y : Entity, y ∈ cc1.m_colliding
              ↔ y ∈ l ∧ y ≠ e ∧ hits cm (moved cc xy) y = true)
      ∧ ∀ x : Entity, x ≠ e →
          cm1.get_entity .Collision x =
            if x ∈ l then (cm.get_entity .Collision x).map (relocate cm x)
            else cm.get_entity .Collision x := by
  have hF0 := Frame.frame_write cm e
    ({ cc with m_colliding := [], m_rect := moved cc xy } : CollisionComponent)
  have hG0 := collision_write_same cm e
    ({ cc with m_colliding := [], m_rect := moved cc xy } : CollisionComponent) cc hcc
  have hK0 := SameKeys.write cm CompType.Collision e
    ({ cc with m_colliding := [], m_rect := moved cc xy } : CollisionComponent)
  have hinit : InnerInv
      (cm.write CompType.Collision e { cc with m_colliding := [], m_rect := moved cc xy }) e
      ({ cc with m_colliding := [], m_rect := moved cc xy } : CollisionComponent) []
      (cm.write CompType.Collision e { cc with m_colliding := [], m_rect := moved cc xy }) := by
    refine ⟨Frame.frame_refl _, ⟨_, hG0, rfl, rfl, id, ?_⟩, ?_⟩
    · intro y; simp
    · intro x _; simp
  obtain ⟨cm1, h1, hF1, ⟨cc1, hG1, hrect, hactive, hnd, hmem⟩, hview⟩ :=
    CollisionSystem.inner_loop_inv e _
      ({ cc with m_colliding := [], m_rect := moved cc xy } : CollisionComponent) hact l [] _
      hinit
      (fun o ho => ⟨(hK0 .XY o).trans (hall o ho).1, (hK0 .Collision o).trans (hall o ho).2⟩)
  have hna : (!cc.m_active) = false := by rw [hact]; rfl
  refine ⟨cm1, ?_, hF0.frame_trans hF1, ⟨cc1, hG1, hrect, hactive.trans hact,
    hnd List.nodup_nil, ?_⟩, ?_⟩
  · unfold CollisionSystem.outer
    simp only [hxy, hcc, hna, Bool.false_eq_true, if_false]
    exact h1
  · intro y
    rw [hmem y]
    simp only [List.not_mem_nil, false_or, List.nil_append]
    constructor
    · rintro ⟨hy, hne, hh⟩
      refine ⟨hy, hne, ?_⟩
      rw [← hh]
      unfold hits
      rw [hF0.xy y, collision_write_other cm e y _ hne]
    · rintro ⟨hy, hne, hh⟩
      refine ⟨hy, hne, ?_⟩
      rw [← hh]
      unfold hits
      rw [hF0.xy y, collision_write_other cm e y _ hne]
  · intro x hx
    rw [hview x hx, collision_write_other cm e x _ hx]
    have hrel : relocate (cm.write CompType.Collision e
        { cc with m_colliding := [], m_rect := moved cc xy }) x = relocate cm x := by
      funext c
      unfold relocate
      rw [hF0.xy x]
    rw [hrel]
    simp only [List.nil_append]

theorem is_active_of_some (cm : Store) (x : Entity) (c : CollisionComponent)
    (h : cm.get_entity .Collision x = some c) : is_active cm x = c.m_active := by
  simp [is_active, h]

theorem collides_eq_hits (cm : Store) (e o : Entity) (xy : XYComponent)
    (c : CollisionComponent) (h1 : cm.get_entity .XY e = some xy)
    (h2 : cm.get_entity .Collision e = some c) :
    collides cm e o = hits cm (moved c xy) o := by
  simp [collides, h1, h2]

theorem Touched.mem (cm : Store) (L D : List Entity) (x : Entity) (hD : ∀ y ∈ D, y ∈ L)
    (h : Touched cm L D x) : x ∈ L := by
  rcases h with ⟨hx, _⟩ | ⟨hx, _⟩
  · exact hD x hx
  · exact hx

theorem OuterInv.init (cm : Store) (L : List Entity) : OuterInv cm L [] cm := by
  refine ⟨Frame.frame_refl cm, fun x => ⟨id, fun c hc => ⟨c, hc, rfl, ?_, fun _ => rfl, ?_, fun _ => rfl⟩⟩⟩
  · rintro ⟨h, _⟩
    exact absurd h (List.not_mem_nil x)
  · rintro (⟨h, _⟩ | ⟨_, e, he, _⟩)
    · exact absurd h (List.not_mem_nil x)
    · exact absurd he (List.not_mem_nil e)

/-- The outer loop changes neither the flag nor the size of a rectangle. -/
theorem OuterInv.shape {cm cm1 : Store} {L D : List Entity} (h : OuterInv cm L D cm1)
    (x : Entity) (c c1 : CollisionComponent) (hc : cm.get_entity .Collision x = some c)
    (hc1 : cm1.get_entity .Collision x = some c1) :
    c1.m_active = c.m_active ∧ c1.m_rect.w = c.m_rect.w ∧ c1.m_rect.h = c.m_rect.h := by
  obtain ⟨c2, hG, hact, _, _, ht, hnt⟩ := (h.2 x).2 c hc
  have h12 : c2 = c1 := Option.some.inj (hG.symm.trans hc1)
  rw [h12] at hact ht hnt
  refine ⟨hact, ?_, ?_⟩
  · by_cases htouch : Touched cm L D x
    · rw [ht htouch, relocate_w]
    · rw [hnt htouch]
  · by_cases htouch : Touched cm L D x
    · rw [ht htouch, relocate_h]
    · rw [hnt htouch]

theorem OuterInv.hits_eq {cm cm1 : Store} {L D : List Entity} (h : OuterInv cm L D cm1)
    (r : SDL_Rect) (y : Entity) : hits cm1 r y = hits cm r y := by
  unfold hits
  rw [h.1.xy y]
  cases hxy : cm.get_entity .XY y with
  | none => rfl
  | some oxy =>
    cases hc : cm.get_entity .Collision y with
    | none => rw [(h.2 y).1 hc]
    | some c =>
      obtain ⟨c1, hG, _⟩ := (h.2 y).2 c hc
      obtain ⟨_, hw, hh⟩ := h.shape y c c1 hc hG
      rw [hG]
      show CollisionSystem.test_collision r (moved c1 oxy)
        = CollisionSystem.test_collision r (moved c oxy)
      rw [moved_congr c c1 oxy hw hh]

theorem OuterInv.collidable {cm cm1 : Store} {L D : List Entity} (h : OuterInv cm L D cm1)
    (l : List Entity) (hall : Collidable l cm) : Collidable l cm1 := by
  intro o ho
  refine ⟨by rw [h.1.xy o]; exact (hall o ho).1, ?_⟩
  obtain ⟨c, hc⟩ := Option.isSome_iff_exists.mp (hall o ho).2
  obtain ⟨c1, hG, _⟩ := (h.2 o).2 c hc
  rw [hG]; rfl

/-- The outer invariant after a visit of an inactive entity, which changes
nothing. -/
theorem OuterInv.step_inactive {cm cm0 : Store} {L D : List Entity} (a : Entity)
    (hinv : OuterInv cm L D cm0) (hact : is_active cm a = false) :
    OuterInv cm L (D ++ [a]) cm0 := by
  refine ⟨hinv.1, fun x => ⟨(hinv.2 x).1, fun cx hcx => ?_⟩⟩
  obtain ⟨c1, hG1, ha1, hin1, hout1, ht1, hnt1⟩ := (hinv.2 x).2 cx hcx
  have hmemD : ∀ y : Entity, y ∈ D ++ [a] ↔ y ∈ D ∨ y = a := by
    intro y; simp [List.mem_append]
  have hcond : (x ∈ D ++ [a] ∧ cx.m_active = true) → (x ∈ D ∧ cx.m_active = true) := by
    rintro ⟨hx, hcxa⟩
    rcases (hmemD x).mp hx with hx | hx
    · exact ⟨hx, hcxa⟩
    · rw [hx] at hcx
      rw [is_active_of_some cm a cx hcx, hcxa] at hact
      cases hact
  have hcond2 : (x ∈ D ∧ cx.m_active = true) → (x ∈ D ++ [a] ∧ cx.m_active = true) :=
    fun h => ⟨(hmemD x).mpr (Or.inl h.1), h.2⟩
  have htouch : Touched cm L (D ++ [a]) x → Touched cm L D x := by
    rintro (⟨hx, hxa⟩ | ⟨hx, e, he, hne, hea⟩)
    · rcases (hmemD x).mp hx with hx | hx
      · exact Or.inl ⟨hx, hxa⟩
      · rw [hx, hact] at hxa; cases hxa
    · rcases (hmemD e).mp he with he | he
      · exact Or.inr ⟨hx, e, he, hne, hea⟩
      · rw [he, hact] at hea; cases hea
  have htouch2 : Touched cm L D x → Touched cm L (D ++ [a]) x := by
    rintro (⟨hx, hxa⟩ | ⟨hx, e, he, hne, hea⟩)
    · exact Or.inl ⟨(hmemD x).mpr (Or.inl hx), hxa⟩
    · exact Or.inr ⟨hx, e, (hmemD e).mpr (Or.inl he), hne, hea⟩
  exact ⟨c1, hG1, ha1, fun h => hin1 (hcond h), fun h => hout1 (fun h2 => h (hcond2 h2)),
    fun h => ht1 (htouch h), fun h => hnt1 (fun h2 => h (htouch2 h2))⟩

/-- The outer invariant after a visit of an active entity `a` of `L` that was not
visited before. -/
theorem OuterInv.step_active {cm cm0 cm2 : Store} {L D : List Entity} (a : Entity)
    (xy : XYComponent) (c c0 cc1 : CollisionComponent)
    (hall : Collidable L cm) (hinv : OuterInv cm L D cm0) (hDL : ∀ y ∈ D, y ∈ L)
    (hxy : cm.get_entity .XY a = some xy) (hc : cm.get_entity .Collision a = some c)
    (hc0 : cm0.get_entity .Collision a = some c0) (hact : c.m_active = true)
    (hF2 : Frame cm0 cm2) (hG2 : cm2.get_entity .Collision a = some cc1)
    (hrect2 : cc1.m_rect = moved c0 xy) (hactive2 : cc1.m_active = true)
    (hnd2 : cc1.m_colliding.Nodup)
    (hmem2 : ∀ y : Entity, y ∈ cc1.m_colliding
      ↔ y ∈ L ∧ y ≠ a ∧ hits cm0 (moved c0 xy) y = true)
    (hview2 : ∀ x : Entity, x ≠ a →
      cm2.get_entity .Collision x =
        if x ∈ L then (cm0.get_entity .Collision x).map (relocate cm0 x)
        else cm0.get_entity .Collision x) :
    OuterInv cm L (D ++ [a]) cm2 := by
  have hmemD : ∀ y : Entity, y ∈ D ++ [a] ↔ y ∈ D ∨ y = a := by
    intro y; simp [List.mem_append]
  have hactive_a : is_active cm a = true := by
    rw [is_active_of_some cm a c hc, hact]
  obtain ⟨_, hw0, hh0⟩ := hinv.shape a c c0 hc hc0
  have hmoved0 : moved c0 xy = moved c xy := moved_congr c c0 xy hw0 hh0
  refine ⟨hinv.1.frame_trans hF2, fun x => ?_⟩
  by_cases hxa : x = a
  · rw [hxa]
    refine ⟨fun h => ?_, fun c1 hc1 => ?_⟩
    · rw [hc] at h; cases h
    · have hcc : c1 = c := Option.some.inj (hc1.symm.trans hc)
      rw [hcc]
      refine ⟨cc1, hG2, hactive2.trans hact.symm, fun _ => ⟨hnd2, fun y => ?_⟩,
        fun hn => absurd ⟨(hmemD a).mpr (Or.inr rfl), hact⟩ hn, fun _ => ?_,
        fun hn => absurd (Or.inl ⟨(hmemD a).mpr (Or.inr rfl), hactive_a⟩) hn⟩
      · rw [hmem2 y, collides_eq_hits cm a y xy c hxy hc, hmoved0, hinv.hits_eq]
      · rw [hrect2, hmoved0, relocate_of_xy cm a c xy hxy]
  · have hG2x := hview2 x hxa
    have hmemx : x ∈ D ++ [a] → x ∈ D := fun h => ((hmemD x).mp h).elim id (fun h2 => absurd h2 hxa)
    refine ⟨fun h => ?_, fun cx hcx => ?_⟩
    · rw [hG2x, (hinv.2 x).1 h]
      split <;> rfl
    · obtain ⟨c1, hG1, ha1, hin1, hout1, _, hnt1⟩ := (hinv.2 x).2 cx hcx
      obtain ⟨_, hw1, hh1⟩ := hinv.shape x cx c1 hcx hG1
      by_cases hxL : x ∈ L
      · obtain ⟨xyx, hxyx⟩ := Option.isSome_iff_exists.mp (hall x hxL).1
        refine ⟨relocate cm0 x c1, by rw [hG2x, if_pos hxL, hG1]; rfl, ?_, ?_, ?_, ?_, ?_⟩
        · rw [relocate_active]; exact ha1
        · intro h
          rw [relocate_colliding]
          exact hin1 ⟨hmemx h.1, h.2⟩
        · intro h
          rw [relocate_colliding]
          exact hout1 (fun h2 => h ⟨(hmemD x).mpr (Or.inl h2.1), h2.2⟩)
        · intro _
          rw [relocate_of_xy cm0 x c1 xyx ((hinv.1.xy x).trans hxyx),
            relocate_of_xy cm x cx xyx hxyx]
          exact moved_congr cx c1 xyx hw1 hh1
        · intro hn
          exact absurd (Or.inr ⟨hxL, a, (hmemD a).mpr (Or.inr rfl), fun h => hxa h.symm,
            hactive_a⟩) hn
      · have hntouch : ¬ Touched cm L D x := fun h => hxL (Touched.mem cm L D x hDL h)
        refine ⟨c1, by rw [hG2x, if_neg hxL]; exact hG1, ha1, ?_, ?_, ?_, ?_⟩
        · intro h
          exact hin1 ⟨hmemx h.1, h.2⟩
        · intro h
          exact hout1 (fun h2 => h ⟨(hmemD x).mpr (Or.inl h2.1), h2.2⟩)
        · intro ht
          exfalso
          apply hxL
          rcases ht with ⟨hx, _⟩ | ⟨hx, _⟩
          · exact hDL x (hmemx hx)
          · exact hx
        · intro _
          exact hnt1 hntouch

/-- The outer loop keeps its invariant: from the state after the entities `D` it
completes over `rest` in the state after `D ++ rest`. -/
theorem CollisionSystem.outer_loop_inv (cm : Store) (L : List Entity)
    (hall : Collidable L cm) (rest : List Entity) :
    ∀ (D : List Entity) (cm0 : Store), OuterInv cm L D cm0 →
      (∀ e ∈ D ++ rest, e ∈ L) →
      ∃ cm1, rest.foldlM (CollisionSystem.outer L) cm0 = some cm1
        ∧ OuterInv cm L (D ++ rest) cm1 := by
  induction rest with
  | nil =>
    intro D cm0 hinv _
    exact ⟨cm0, rfl, by simpa using hinv⟩
  | cons a rest ih =>
    intro D cm0 hinv hsub
    have haL : a ∈ L := hsub a (by simp)
    have hDL : ∀ y ∈ D, y ∈ L := fun y hy => hsub y (List.mem_append_left _ hy)
    have hsub1 : ∀ e ∈ (D ++ [a]) ++ rest, e ∈ L := by
      intro e he
      apply hsub e
      simpa [List.append_assoc] using he
    obtain ⟨xy, hxy⟩ := Option.isSome_iff_exists.mp (hall a haL).1
    obtain ⟨c, hc⟩ := Option.isSome_iff_exists.mp (hall a haL).2
    obtain ⟨c0, hc0, hact0, _⟩ := (hinv.2 a).2 c hc
    have hxy0 : cm0.get_entity .XY a = some xy := (hinv.1.xy a).trans hxy
    by_cases hact : c.m_active = true
    · obtain ⟨cm2, hstep, hF2, ⟨cc1, hG2, hrect2, hactive2, hnd2, hmem2⟩, hview2⟩ :=
        CollisionSystem.outer_view L cm0 a xy c0 (hinv.collidable L hall) hxy0 hc0
          (hact0.trans hact)
      have hinv2 : OuterInv cm L (D ++ [a]) cm2 :=
        OuterInv.step_active a xy c c0 cc1 hall hinv hDL hxy hc hc0 hact hF2 hG2 hrect2
          hactive2 hnd2 hmem2 hview2
      obtain ⟨cm1, h1, hinv1⟩ := ih (D ++ [a]) cm2 hinv2 hsub1
      refine ⟨cm1, ?_, by simpa [List.append_assoc] using hinv1⟩
      rw [List.foldlM_cons, hstep]
      exact h1
    · have hfalse : c.m_active = false := by simpa using hact
      have hstep := CollisionSystem.outer_inactive L cm0 a xy c0 hxy0 hc0 (hact0.trans hfalse)
      have hinv2 : OuterInv cm L (D ++ [a]) cm0 :=
        OuterInv.step_inactive a hinv (by rw [is_active_of_some cm a c hc, hfalse])
      obtain ⟨cm1, h1, hinv1⟩ := ih (D ++ [a]) cm0 hinv2 hsub1
      refine ⟨cm1, ?_, by simpa [List.append_assoc] using hinv1⟩
      rw [List.foldlM_cons, hstep]
      exact h1

/-- What the two nested loops compute over a list of entities that all have `XY`
and `Collision`. -/
theorem CollisionSystem.run_over_spec (cm : Store) (L : List Entity)
    (hall : Collidable L cm) :
    ∃ cm1, CollisionSystem.run_over L cm = some cm1 ∧ OuterInv cm L L cm1 := by
  obtain ⟨cm1, h1, hinv1⟩ :=
    CollisionSystem.outer_loop_inv cm L hall L [] cm (OuterInv.init cm L)
      (fun e he => by simpa using he)
  exact ⟨cm1, h1, by simpa using hinv1⟩

/-- The outer invariant mentions the lists through their members only. -/
theorem OuterInv.congr {cm cm1 : Store} {L K : List Entity} (hLK : ∀ y : Entity, y ∈ L ↔ y ∈ K)
    (h : OuterInv cm L L cm1) : OuterInv cm K K cm1 := by
  have htouch : ∀ x, Touched cm K K x ↔ Touched cm L L x := by
    intro x
    constructor
    · rintro (⟨hx, hxa⟩ | ⟨hx, e, he, hne, hea⟩)
      · exact Or.inl ⟨(hLK x).mpr hx, hxa⟩
      · exact Or.inr ⟨(hLK x).mpr hx, e, (hLK e).mpr he, hne, hea⟩
    · rintro (⟨hx, hxa⟩ | ⟨hx, e, he, hne, hea⟩)
      · exact Or.inl ⟨(hLK x).mp hx, hxa⟩
      · exact Or.inr ⟨(hLK x).mp hx, e, (hLK e).mp he, hne, hea⟩
  refine ⟨h.1, fun x => ⟨(h.2 x).1, fun c hc => ?_⟩⟩
  obtain ⟨c1, hG1, ha1, hin1, hout1, ht1, hnt1⟩ := (h.2 x).2 c hc
  refine ⟨c1, hG1, ha1, fun hx => ?_, fun hx => hout1 (fun h2 => hx ⟨(hLK x).mp h2.1, h2.2⟩),
    fun hx => ht1 ((htouch x).mp hx), fun hx => hnt1 (fun h2 => hx ((htouch x).mpr h2))⟩
  obtain ⟨hnd, hmem⟩ := hin1 ⟨(hLK x).mpr hx.1, hx.2⟩
  refine ⟨hnd, fun y => ?_⟩
  rw [hmem y, hLK y]

/-- Two stores that satisfy the outer invariant for the same start hold the same
`Collision` components, the layout of the colliding sets aside. -/
theorem OuterInv.collisionEquiv {cm cm1 cm2 : Store} {L : List Entity}
    (h1 : OuterInv cm L L cm1) (h2 : OuterInv cm L L cm2) (x : Entity) :
    CollisionEquiv (cm1.get_entity .Collision x) (cm2.get_entity .Collision x) := by
  cases hc : cm.get_entity .Collision x with
  | none =>
    rw [(h1.2 x).1 hc, (h2.2 x).1 hc]
    trivial
  | some c =>
    obtain ⟨c1, hG1, ha1, hin1, hout1, ht1, hnt1⟩ := (h1.2 x).2 c hc
    obtain ⟨c2, hG2, ha2, hin2, hout2, ht2, hnt2⟩ := (h2.2 x).2 c hc
    rw [hG1, hG2]
    refine ⟨?_, ha1.trans ha2.symm, fun y => ?_⟩
    · by_cases ht : Touched cm L L x
      · rw [ht1 ht, ht2 ht]
      · rw [hnt1 ht, hnt2 ht]
    · by_cases hx : x ∈ L ∧ c.m_active = true
      · rw [(hin1 hx).2 y, (hin2 hx).2 y]
      · rw [hout1 hx, hout2 hx]

/-- The two nested loops over any list with the members of
`select<XY, Collision>()`: they complete, and the store satisfies the outer
invariant stated with the selected set. -/
theorem CollisionSystem.run_over_members (cm : Store) (order : List Entity)
    (h : ∀ y : Entity, y ∈ order ↔ y ∈ System.select CollisionSystem.types cm) :
    ∃ cm1, CollisionSystem.run_over order cm = some cm1
      ∧ OuterInv cm (System.select CollisionSystem.types cm)
          (System.select CollisionSystem.types cm) cm1
      ∧ SameShape cm cm1 := by
  have hall : Collidable order cm :=
    fun e he => CollisionSystem.collidable_select cm e ((h e).mp he)
  obtain ⟨cm1, h1, hinv⟩ := CollisionSystem.run_over_spec cm order hall
  exact ⟨cm1, h1, hinv.congr h, CollisionSystem.run_over_shape order cm cm1 h1⟩

theorem StoreEquiv.of_outerInv {cm cm1 cm2 : Store} {L : List Entity}
    (h1 : OuterInv cm L L cm1) (s1 : SameShape cm cm1)
    (h2 : OuterInv cm L L cm2) (s2 : SameShape cm cm2) : StoreEquiv cm1 cm2 :=
  ⟨fun i hi => (h1.1.1 i hi).trans (h2.1.1 i hi).symm, h1.1.2.trans h2.1.2.symm,
    (s1.1 CompType.Collision).trans (s2.1 CompType.Collision).symm,
    fun x => OuterInv.collisionEquiv h1 h2 x⟩

theorem colliding_of_some (cm : Store) (x : Entity) (c : CollisionComponent)
    (h : cm.get_entity .Collision x = some c) : colliding cm x = c.m_colliding := by
  simp [colliding, h]

/-- The colliding set of an active entity of the selected set after the loops. -/
theorem OuterInv.colliding_active {cm cm1 : Store} {L : List Entity}
    (h : OuterInv cm L L cm1) (hall : Collidable L cm) (e : Entity) (he : e ∈ L)
    (hact : is_active cm e = true) :
    (colliding cm1 e).Nodup
      ∧ ∀ o : Entity, o ∈ colliding cm1 e ↔ o ∈ L ∧ o ≠ e ∧ collides cm e o = true := by
  obtain ⟨c, hc⟩ := Option.isSome_iff_exists.mp (hall e he).2
  obtain ⟨c1, hG1, _, hin1, _⟩ := (h.2 e).2 c hc
  rw [is_active_of_some cm e c hc] at hact
  rw [colliding_of_some cm1 e c1 hG1]
  exact hin1 ⟨he, hact⟩

/-- The component of an inactive entity after the loops: flag and colliding set
are as before. -/
theorem OuterInv.colliding_inactive {cm cm1 : Store} {L : List Entity}
    (h : OuterInv cm L L cm1) (e : Entity) (c : CollisionComponent)
    (hc : cm.get_entity .Collision e = some c) (hact : c.m_active = false) :
    ∃ c1 : CollisionComponent, cm1.get_entity .Collision e = some c1
      ∧ c1.m_active = false ∧ c1.m_colliding = c.m_colliding := by
  obtain ⟨c1, hG1, ha1, _, hout1, _⟩ := (h.2 e).2 c hc
  refine ⟨c1, hG1, ha1.trans hact, hout1 ?_⟩
  rintro ⟨_, h2⟩
  rw [hact] at h2
  cases h2

/-- An exact result inside `INT_MIN .. INT_MAX` is the value the `int` holds. -/
theorem int32_of_range (n : Int) (hlo : INT_MIN ≤ n) (hhi : n ≤ INT_MAX) : int32 n = n := by
  unfold INT_MIN at hlo
  unfold INT_MAX at hhi
  unfold int32
  omega

/-- Rectangles of the same size whose positions differ by at most that size, none
of the sums `x + w`, `y + h` leaving the range of `int`. -/
theorem CollisionSystem.test_collision_same_size (x0 y0 x1 y1 w h : Int)
    (hw : 0 ≤ w) (hh : 0 ≤ h)
    (_hx0 : INT_MIN ≤ x0) (_hy0 : INT_MIN ≤ y0) (hx1 : INT_MIN ≤ x1) (hy1 : INT_MIN ≤ y1)
    (hxw0 : x0 + w ≤ INT_MAX) (hyh0 : y0 + h ≤ INT_MAX)
    (hxw1 : x1 + w ≤ INT_MAX) (hyh1 : y1 + h ≤ INT_MAX)
    (hx01 : x0 - x1 ≤ w) (hx10 : x1 - x0 ≤ w) (hy01 : y0 - y1 ≤ h) (hy10 : y1 - y0 ≤ h) :
    CollisionSystem.test_collision { x := x0, y := y0, w := w, h := h }
      { x := x1, y := y1, w := w, h := h } = true := by
  have e0 : int32 (x0 + w) = x0 + w := int32_of_range _ (by omega) hxw0
  have e1 : int32 (x1 + w) = x1 + w := int32_of_range _ (by omega) hxw1
  have e2 : int32 (y0 + h) = y0 + h := int32_of_range _ (by omega) hyh0
  have e3 : int32 (y1 + h) = y1 + h := int32_of_range _ (by omega) hyh1
  have hx : (x0 ≥ x1 ∧ x0 ≤ x1 + w) ∨ (x0 + w ≥ x1 ∧ x0 + w ≤ x1 + w) := by
    by_cases hc : x0 ≥ x1
    · exact Or.inl ⟨hc, by omega⟩
    · exact Or.inr ⟨by omega, by omega⟩
  have hy : (y0 ≥ y1 ∧ y0 ≤ y1 + h) ∨ (y0 + h ≥ y1 ∧ y0 + h ≤ y1 + h) := by
    by_cases hc : y0 ≥ y1
    · exact Or.inl ⟨hc, by omega⟩
    · exact Or.inr ⟨by omega, by omega⟩
  simp only [CollisionSystem.test_collision, e0, e1, e2, e3, Bool.and_eq_true,
    Bool.or_eq_true, decide_eq_true_eq]
  exact ⟨hx, hy⟩

theorem InputSystem.run_delta_frame (dx dy : Int) (cm : Store) :
    ∃ cm1, InputSystem.run_delta dx dy cm = some cm1
      ∧ (∀ e : Entity, cm.get_entity .Input e = none →
          cm1.get_entity .XY e = cm.get_entity .XY e)
      ∧ cm1.m_components .Input = cm.m_components .Input
      ∧ cm1.m_components .Sprite = cm.m_components .Sprite
      ∧ cm1.m_components .Collision = cm.m_components .Collision
      ∧ cm1.m_next_entity = cm.m_next_entity := by
  have hsel := ComponentManager.mem_select_iff cm InputSystem.types (by decide)
  obtain ⟨cm1, hrun, hspec, hoth, hcnt⟩ :=
    InputSystem.loop_spec dx dy (System.select InputSystem.types cm) cm
      (ComponentManager.nodup_select cm InputSystem.types)
      (fun e1 he1 => (hsel e1).mp he1 .XY (by decide))
  refine ⟨cm1, hrun, ?_, hoth .Input (by decide), hoth .Sprite (by decide),
    hoth .Collision (by decide), hcnt⟩
  intro e hnone
  have hmem : e ∉ System.select InputSystem.types cm := by
    intro he
    have := (hsel e).mp he .Input (by decide)
    rw [hnone] at this
    cases this
  rw [hspec e, if_neg hmem]

theorem CollisionSystem.mem_select_of_some (cm : Store) (e : Entity) (xy : XYComponent)
    (c : CollisionComponent) (h1 : cm.get_entity .XY e = some xy)
    (h2 : cm.get_entity .Collision e = some c) :
    e ∈ System.select CollisionSystem.types cm := by
  apply (ComponentManager.mem_select_iff cm CollisionSystem.types (by decide) e).mpr
  intro i hi
  simp only [CollisionSystem.types, List.mem_cons, List.mem_singleton, List.not_mem_nil,
    or_false] at hi
  rcases hi with rfl | rfl
  · rw [h1]; rfl
  · rw [h2]; rfl

/-! ## The claims on the platformer systems -/

/-- C11: the symmetry of the colliding sets fails on the code. Entity 0 at `(0,0)`
with a 10x10 rectangle and entity 1 at `(2,2)` with a 1x1 rectangle both have `XY`
and an active `Collision`; after one `CollisionSystem::run` entity 0 is in the
colliding set of entity 1 and entity 1 is not in the colliding set of entity 0,
because `test_collision` misses a rectangle that contains the other one. -/
theorem C11_symmetry_fails_on_containment :
    ((scenario_pair ⟨0, 0⟩ ⟨2, 2⟩ (collision_box 10 10) (collision_box 1 1)).get_entity
        CompType.XY 0).isSome = true
      ∧ ((scenario_pair ⟨0, 0⟩ ⟨2, 2⟩ (collision_box 10 10) (collision_box 1 1)).get_entity
        CompType.XY 1).isSome = true
      ∧ is_active (scenario_pair ⟨0, 0⟩ ⟨2, 2⟩ (collision_box 10 10) (collision_box 1 1)) 0
        = true
      ∧ is_active (scenario_pair ⟨0, 0⟩ ⟨2, 2⟩ (collision_box 10 10) (collision_box 1 1)) 1
        = true
      ∧ (CollisionSystem.run
          (scenario_pair ⟨0, 0⟩ ⟨2, 2⟩ (collision_box 10 10) (collision_box 1 1))).map
          (fun cm1 => (decide ((1 : Entity) ∈ colliding cm1 0),
            decide ((0 : Entity) ∈ colliding cm1 1))) = some (false, true)
      ∧ CollisionSystem.test_collision ⟨0, 0, 10, 10⟩ ⟨2, 2, 1, 1⟩ = false
      ∧ CollisionSystem.test_collision ⟨2, 2, 1, 1⟩ ⟨0, 0, 10, 10⟩ = true := by
  decide

/-- C12, as stated, fails on the code. Entity 0 at `(2147483640, 0)` and entity 1
at `(2147483645, 0)` are distinct, both have `XY` and an active `Collision` with a
10x10 rectangle, and their positions differ by 5 in `x` and 0 in `y`; the sums
`x + 10` pass `INT_MAX`, `test_collision` is false in both directions, and after
one `CollisionSystem::run` both colliding sets are empty. -/
theorem C12_fails_on_overflow :
    (0 : Entity) ≠ 1
      ∧ (scenario_pair ⟨2147483640, 0⟩ ⟨2147483645, 0⟩ (collision_box 10 10)
          (collision_box 10 10)).get_entity CompType.XY 0 = some ⟨2147483640, 0⟩
      ∧ (scenario_pair ⟨2147483640, 0⟩ ⟨2147483645, 0⟩ (collision_box 10 10)
          (collision_box 10 10)).get_entity CompType.XY 1 = some ⟨2147483645, 0⟩
      ∧ (scenario_pair ⟨2147483640, 0⟩ ⟨2147483645, 0⟩ (collision_box 10 10)
          (collision_box 10 10)).get_entity CompType.Collision 0
          = some { m_rect := ⟨0, 0, 10, 10⟩, m_active := true, m_colliding := [] }
      ∧ (scenario_pair ⟨2147483640, 0⟩ ⟨2147483645, 0⟩ (collision_box 10 10)
          (collision_box 10 10)).get_entity CompType.Collision 1
          = some { m_rect := ⟨0, 0, 10, 10⟩, m_active := true, m_colliding := [] }
      ∧ (0 : Int) ≤ 10
      ∧ (2147483640 : Int) - 2147483645 ≤ 10 ∧ (2147483645 : Int) - 2147483640 ≤ 10
      ∧ (0 : Int) - 0 ≤ 10
      ∧ CollisionSystem.test_collision ⟨2147483640, 0, 10, 10⟩ ⟨2147483645, 0, 10, 10⟩ = false
      ∧ CollisionSystem.test_collision ⟨2147483645, 0, 10, 10⟩ ⟨2147483640, 0, 10, 10⟩ = false
      ∧ (CollisionSystem.run (scenario_pair ⟨2147483640, 0⟩ ⟨2147483645, 0⟩
          (collision_box 10 10) (collision_box 10 10))).map
          (fun cm1 => (colliding cm1 0, colliding cm1 1)) = some ([], []) := by
  decide

/-- C12, amended: two distinct entities with `XY` and active `Collision` components
whose rectangles have the same size `w` x `h` (both non-negative), whose positions
are values of `int` with `x + w` and `y + h` at most `INT_MAX` for both, and whose
positions differ by at most `w` in `x` and at most `h` in `y`, are in the
colliding set of each other after one `CollisionSystem::run`. -/
theorem C12_same_size_overlap (cm : Store) (e0 e1 : Entity) (x0 y0 x1 y1 w h : Int)
    (c0 c1 : CollisionComponent) (hne : e0 ≠ e1)
    (hxy0 : cm.get_entity .XY e0 = some { m_x := x0, m_y := y0 })
    (hxy1 : cm.get_entity .XY e1 = some { m_x := x1, m_y := y1 })
    (hc0 : cm.get_entity .Collision e0 = some c0)
    (hc1 : cm.get_entity .Collision e1 = some c1)
    (hact0 : c0.m_active = true) (hact1 : c1.m_active = true)
    (hw0 : c0.m_rect.w = w) (hh0 : c0.m_rect.h = h)
    (hw1 : c1.m_rect.w = w) (hh1 : c1.m_rect.h = h)
    (hw : 0 ≤ w) (hh : 0 ≤ h)
    (hx0 : INT_MIN ≤ x0) (hy0 : INT_MIN ≤ y0) (hx1 : INT_MIN ≤ x1) (hy1 : INT_MIN ≤ y1)
    (hxw0 : x0 + w ≤ INT_MAX) (hyh0 : y0 + h ≤ INT_MAX)
    (hxw1 : x1 + w ≤ INT_MAX) (hyh1 : y1 + h ≤ INT_MAX)
    (hx01 : x0 - x1 ≤ w) (hx10 : x1 - x0 ≤ w) (hy01 : y0 - y1 ≤ h) (hy10 : y1 - y0 ≤ h) :
    ∃ cm1, CollisionSystem.run cm = some cm1
      ∧ e1 ∈ colliding cm1 e0 ∧ e0 ∈ colliding cm1 e1 := by
  obtain ⟨cm1, hrun, hinv, _⟩ :=
    CollisionSystem.run_over_members cm (System.select CollisionSystem.types cm)
      (fun _ => Iff.rfl)
  have hall := CollisionSystem.collidable_select cm
  have hm0 := CollisionSystem.mem_select_of_some cm e0 _ c0 hxy0 hc0
  have hm1 := CollisionSystem.mem_select_of_some cm e1 _ c1 hxy1 hc1
  have hcol01 : collides cm e0 e1 = true := by
    rw [collides_eq_hits cm e0 e1 _ c0 hxy0 hc0, hits_of_some cm _ e1 _ c1 hxy1 hc1]
    simp only [moved, hw0, hh0, hw1, hh1]
    exact CollisionSystem.test_collision_same_size x0 y0 x1 y1 w h hw hh hx0 hy0 hx1 hy1
      hxw0 hyh0 hxw1 hyh1 hx01 hx10 hy01 hy10
  have hcol10 : collides cm e1 e0 = true := by
    rw [collides_eq_hits cm e1 e0 _ c1 hxy1 hc1, hits_of_some cm _ e0 _ c0 hxy0 hc0]
    simp only [moved, hw0, hh0, hw1, hh1]
    exact CollisionSystem.test_collision_same_size x1 y1 x0 y0 w h hw hh hx1 hy1 hx0 hy0
      hxw1 hyh1 hxw0 hyh0 hx10 hx01 hy10 hy01
  refine ⟨cm1, hrun, ?_, ?_⟩
  · exact ((hinv.colliding_active hall e0 hm0
      (by rw [is_active_of_some cm e0 c0 hc0, hact0])).2 e1).mpr
      ⟨hm1, fun h => hne h.symm, hcol01⟩
  · exact ((hinv.colliding_active hall e1 hm1
      (by rw [is_active_of_some cm e1 c1 hc1, hact1])).2 e0).mpr ⟨hm0, hne, hcol10⟩

/-- C12 at the scenario of the claim: entity 0 at `(0,0)` and entity 1 at `(9,9)`,
both with a 10x10 rectangle. -/
theorem C12_same_size_overlap_witness :
    ∃ cm1, CollisionSystem.run
        (scenario_pair ⟨0, 0⟩ ⟨9, 9⟩ (collision_box 10 10) (collision_box 10 10)) = some cm1
      ∧ (1 : Entity) ∈ colliding cm1 0 ∧ (0 : Entity) ∈ colliding cm1 1 :=
  C12_same_size_overlap
    (scenario_pair ⟨0, 0⟩ ⟨9, 9⟩ (collision_box 10 10) (collision_box 10 10))
    0 1 0 0 9 9 10 10 (collision_box 10 10) (collision_box 10 10)
    (by decide) (by decide) (by decide) (by decide) (by decide) rfl rfl rfl rfl rfl rfl
    (by decide) (by decide) (by decide) (by decide) (by decide) (by decide)
    (by decide) (by decide) (by decide) (by decide)
    (by decide) (by decide) (by decide) (by decide)

/-- C13: an entity whose `Collision` component is marked inactive has the same
colliding set (and the same flag) after `CollisionSystem::run` as before, on every
store; an empty set stays empty. -/
theorem C13_inactive_unchanged (cm : Store) (e0 : Entity) (c : CollisionComponent)
    (hc : cm.get_entity .Collision e0 = some c) (hact : c.m_active = false) :
    ∃ cm1, CollisionSystem.run cm = some cm1
      ∧ ∃ c1 : CollisionComponent, cm1.get_entity .Collision e0 = some c1
          ∧ c1.m_active = false ∧ c1.m_colliding = c.m_colliding
          ∧ (c.m_colliding = [] → c1.m_colliding = []) := by
  obtain ⟨cm1, hrun, hinv, _⟩ :=
    CollisionSystem.run_over_members cm (System.select CollisionSystem.types cm)
      (fun _ => Iff.rfl)
  obtain ⟨c1, hG1, ha1, hcol⟩ := hinv.colliding_inactive e0 c hc hact
  exact ⟨cm1, hrun, c1, hG1, ha1, hcol, fun h => hcol.trans h⟩

/-- C13 at a store where the inactive entity 1 at `(5,5)` overlaps the active
entity 0 at `(0,0)`, both 10x10. -/
theorem C13_inactive_unchanged_witness :
    (scenario_pair ⟨0, 0⟩ ⟨5, 5⟩ (collision_box 10 10)
        { collision_box 10 10 with m_active := false }).get_entity CompType.Collision 1
        = some { collision_box 10 10 with m_active := false }
      ∧ ∃ cm1, CollisionSystem.run (scenario_pair ⟨0, 0⟩ ⟨5, 5⟩ (collision_box 10 10)
            { collision_box 10 10 with m_active := false }) = some cm1
          ∧ ∃ c1 : CollisionComponent, cm1.get_entity CompType.Collision 1 = some c1
            ∧ c1.m_active = false ∧ c1.m_colliding = []
            ∧ (([] : USet) = [] → c1.m_colliding = []) :=
  ⟨by decide,
    C13_inactive_unchanged (scenario_pair ⟨0, 0⟩ ⟨5, 5⟩ (collision_box 10 10)
      { collision_box 10 10 with m_active := false }) 1
      { collision_box 10 10 with m_active := false } (by decide) rfl⟩

/-- C14: for every store and every iteration order of the working set
`W = select<XY, Collision>()`, `CollisionSystem::run` completes; afterwards every
active entity `e` of `W` has as colliding set exactly the entities `o` of `W`
other than `e` for which `test_collision` holds of the rectangle of `e` moved to
`XY(e)` and the rectangle of `o` moved to `XY(o)`, so `e` is not in its own set;
written out, membership depends on the two positions and the two sizes only, not
on the previous colliding set or the previous `x`, `y` of the rectangles; and the
stores reached with two iteration orders, and with the order of `select` itself,
are the same up to the layout of the colliding sets. -/
theorem C14_collision_order_independent (cm : Store) (order : List Entity)
    (horder : order.Perm (System.select CollisionSystem.types cm)) :
    ∃ cm1, CollisionSystem.run_over order cm = some cm1
      ∧ (∀ e ∈ System.select CollisionSystem.types cm, is_active cm e = true →
          (colliding cm1 e).Nodup
            ∧ (∀ o : Entity, o ∈ colliding cm1 e
                ↔ o ∈ System.select CollisionSystem.types cm ∧ o ≠ e
                  ∧ collides cm e o = true)
            ∧ e ∉ colliding cm1 e)
      ∧ (∀ (e o : Entity) (xe xo : XYComponent) (ce co : CollisionComponent),
          cm.get_entity .XY e = some xe → cm.get_entity .Collision e = some ce →
          cm.get_entity .XY o = some xo → cm.get_entity .Collision o = some co →
          ce.m_active = true → o ≠ e →
          (o ∈ colliding cm1 e ↔
            CollisionSystem.test_collision
              { x := xe.m_x, y := xe.m_y, w := ce.m_rect.w, h := ce.m_rect.h }
              { x := xo.m_x, y := xo.m_y, w := co.m_rect.w, h := co.m_rect.h } = true))
      ∧ (∃ cm2, CollisionSystem.run cm = some cm2 ∧ StoreEquiv cm1 cm2)
      ∧ (∀ order2 : List Entity, order2.Perm (System.select CollisionSystem.types cm) →
          ∃ cm2, CollisionSystem.run_over order2 cm = some cm2 ∧ StoreEquiv cm1 cm2) := by
  obtain ⟨cm1, hrun, hinv, hshape⟩ :=
    CollisionSystem.run_over_members cm order (fun _ => horder.mem_iff)
  have hall := CollisionSystem.collidable_select cm
  have hother : ∀ order2 : List Entity,
      order2.Perm (System.select CollisionSystem.types cm) →
      ∃ cm2, CollisionSystem.run_over order2 cm = some cm2 ∧ StoreEquiv cm1 cm2 := by
    intro order2 h2
    obtain ⟨cm2, hrun2, hinv2, hshape2⟩ :=
      CollisionSystem.run_over_members cm order2 (fun _ => h2.mem_iff)
    exact ⟨cm2, hrun2, StoreEquiv.of_outerInv hinv hshape hinv2 hshape2⟩
  refine ⟨cm1, hrun, ?_, ?_, hother _ (List.Perm.refl _), hother⟩
  · intro e he hact
    obtain ⟨hnd, hmem⟩ := hinv.colliding_active hall e he hact
    exact ⟨hnd, hmem, fun h => ((hmem e).mp h).2.1 rfl⟩
  · intro e o xe xo ce co hxe hce hxo hco hact hne
    have he := CollisionSystem.mem_select_of_some cm e xe ce hxe hce
    have ho := CollisionSystem.mem_select_of_some cm o xo co hxo hco
    obtain ⟨_, hmem⟩ := hinv.colliding_active hall e he
      (by rw [is_active_of_some cm e ce hce, hact])
    rw [hmem o, collides_eq_hits cm e o xe ce hxe hce, hits_of_some cm _ o xo co hxo hco]
    constructor
    · intro h; exact h.2.2
    · intro h; exact ⟨ho, hne, h⟩

/-- C14 at a store with three collidable entities, visited in the order
`[2, 0, 1]`. -/
theorem C14_collision_order_independent_witness :
    [(2 : Entity), 0, 1].Perm (System.select CollisionSystem.types
        (((scenario_pair ⟨0, 0⟩ ⟨9, 9⟩ (collision_box 10 10)
            (collision_box 10 10)).add_to_entity CompType.XY 2 ⟨50, 50⟩).add_to_entity
          CompType.Collision 2 (collision_box 3 3)))
      ∧ ∃ cm1, CollisionSystem.run_over [2, 0, 1]
          (((scenario_pair ⟨0, 0⟩ ⟨9, 9⟩ (collision_box 10 10)
              (collision_box 10 10)).add_to_entity CompType.XY 2 ⟨50, 50⟩).add_to_entity
            CompType.Collision 2 (collision_box 3 3)) = some cm1
          ∧ ∃ cm2, CollisionSystem.run
              (((scenario_pair ⟨0, 0⟩ ⟨9, 9⟩ (collision_box 10 10)
                  (collision_box 10 10)).add_to_entity CompType.XY 2 ⟨50, 50⟩).add_to_entity
                CompType.Collision 2 (collision_box 3 3)) = some cm2
              ∧ StoreEquiv cm1 cm2 := by
  refine ⟨by decide, ?_⟩
  obtain ⟨cm1, h1, _, _, h2, _⟩ := C14_collision_order_independent
    (((scenario_pair ⟨0, 0⟩ ⟨9, 9⟩ (collision_box 10 10)
        (collision_box 10 10)).add_to_entity CompType.XY 2 ⟨50, 50⟩).add_to_entity
      CompType.Collision 2 (collision_box 3 3)) [2, 0, 1] (by decide)
  exact ⟨cm1, h1, h2⟩

/-- C15: the code reports inactive colliders. Entity 0 at `(0,0)` is active,
entity 1 at `(5,5)` is marked inactive, both 10x10; after one
`CollisionSystem::run` the inactive entity 1 is in the colliding set of entity 0,
because the inner loop tests `cc.m_active` of the outer entity a second time and
never `other_cc.m_active`. -/
theorem C15_inactive_collider_reported :
    is_active (scenario_pair ⟨0, 0⟩ ⟨5, 5⟩ (collision_box 10 10)
        { collision_box 10 10 with m_active := false }) 0 = true
      ∧ is_active (scenario_pair ⟨0, 0⟩ ⟨5, 5⟩ (collision_box 10 10)
        { collision_box 10 10 with m_active := false }) 1 = false
      ∧ (CollisionSystem.run (scenario_pair ⟨0, 0⟩ ⟨5, 5⟩ (collision_box 10 10)
          { collision_box 10 10 with m_active := false })).map
          (fun cm1 => (colliding cm1 0, is_active cm1 0, is_active cm1 1))
          = some ([1], true, false) := by
  decide

/-- C16: for every store and every delta (and every keyboard state),
`InputSystem::run` completes, leaves the `XY` of every entity without an `Input`
component as it was, and leaves the `Input`, `Sprite` and `Collision` tables and
the counter as they were. -/
theorem C16_input_frame (cm : Store) :
    (∀ dx dy : Int, ∃ cm1, InputSystem.run_delta dx dy cm = some cm1
        ∧ (∀ e : Entity, cm.get_entity .Input e = none →
            cm1.get_entity .XY e = cm.get_entity .XY e)
        ∧ cm1.m_components .Input = cm.m_components .Input
        ∧ cm1.m_components .Sprite = cm.m_components .Sprite
        ∧ cm1.m_components .Collision = cm.m_components .Collision
        ∧ cm1.m_next_entity = cm.m_next_entity)
      ∧ (∀ keys : KeyboardState, ∃ cm1, InputSystem.run keys cm = some cm1
        ∧ (∀ e : Entity, cm.get_entity .Input e = none →
            cm1.get_entity .XY e = cm.get_entity .XY e)
        ∧ cm1.m_components .Input = cm.m_components .Input
        ∧ cm1.m_components .Sprite = cm.m_components .Sprite
        ∧ cm1.m_components .Collision = cm.m_components .Collision
        ∧ cm1.m_next_entity = cm.m_next_entity) :=
  ⟨fun dx dy => InputSystem.run_delta_frame dx dy cm,
    fun _ => InputSystem.run_delta_frame _ _ cm⟩

/-- C16 at the store of the position scenario with a second entity 1 that has
`XY(5,5)` and no `Input`: a run with the delta `(1,0)` leaves its `XY` alone. -/
theorem C16_input_frame_witness :
    ((scenario_input 0 0).add_to_entity CompType.XY 1 ⟨5, 5⟩).get_entity CompType.Input 1
        = none
      ∧ ∃ cm1, InputSystem.run_delta 1 0
            ((scenario_input 0 0).add_to_entity CompType.XY 1 ⟨5, 5⟩) = some cm1
          ∧ cm1.get_entity CompType.XY 1 = some ⟨5, 5⟩ := by
  refine ⟨by decide, ?_⟩
  obtain ⟨cm1, h1, hxy, _⟩ :=
    (C16_input_frame ((scenario_input 0 0).add_to_entity CompType.XY 1 ⟨5, 5⟩)).1 1 0
  exact ⟨cm1, h1, (hxy 1 (by decide)).trans (by decide)⟩

/-- C17: `InputSystem::run` and `CollisionSystem::run` complete on every store and
leave the keys of every table and the counter as they were, so `select` over any
list of types returns the same set afterwards; the same holds after any number of
ticks of a world whose systems are these two. -/
theorem C17_systems_keep_keys :
    (∀ (keys : KeyboardState) (cm : Store), ∃ cm1, InputSystem.run keys cm = some cm1
        ∧ SameShape cm cm1 ∧ ∀ types : List CompType, cm1.select types = cm.select types)
      ∧ (∀ cm : Store, ∃ cm1, CollisionSystem.run cm = some cm1
        ∧ SameShape cm cm1 ∧ ∀ types : List CompType, cm1.select types = cm.select types)
      ∧ (∀ (frames : List KeyboardState) (w : World GameSystem Store),
          ∃ w1, run_ticks frames w = some w1
            ∧ SameShape w.m_component_mgr w1.m_component_mgr
            ∧ ∀ types : List CompType,
                w1.m_component_mgr.select types = w.m_component_mgr.select types) := by
  refine ⟨fun keys cm => ?_, fun cm => ?_, fun frames w => ?_⟩
  · obtain ⟨cm1, h, hs⟩ := GameSystem.run_shape keys GameSystem.input cm
    exact ⟨cm1, h, hs, hs.select_eq⟩
  · obtain ⟨cm1, h, hs⟩ := GameSystem.run_shape (fun _ => 0) GameSystem.collision cm
    exact ⟨cm1, h, hs, hs.select_eq⟩
  · obtain ⟨w1, h, _, hs⟩ := run_ticks_shape frames w
    exact ⟨w1, h, hs, hs.select_eq⟩

/-- C18: on a store reached from a fresh one by `create_entity` calls and
`add_to_entity` calls on identifiers that `create_entity` returned before, every
key of every table is at least 0 and below the counter; so the identifier that the
next `create_entity` returns has no component in any table and is in no `select`
result, before and after that call. -/
theorem C18_keys_below_counter {ι : Type} [DecidableEq ι] {C : ι → Type}
    (ops : List (StoreOp ι C))
    (h : issued_only [] (ComponentManager.fresh : ComponentManager ι C) ops = true) :
    (∀ (i : ι), ∀ e ∈ ((run_ops ops ComponentManager.fresh).1.m_components i).keys,
        0 ≤ e ∧ e < (run_ops ops ComponentManager.fresh).1.m_next_entity)
      ∧ (∀ i : ι, (run_ops ops ComponentManager.fresh).1.get_entity i
          (run_ops ops ComponentManager.fresh).1.create_entity.1 = none)
      ∧ (∀ types : List ι, (run_ops ops ComponentManager.fresh).1.create_entity.1
          ∉ (run_ops ops ComponentManager.fresh).1.select types)
      ∧ (∀ i : ι, (run_ops ops ComponentManager.fresh).1.create_entity.2.get_entity i
          (run_ops ops ComponentManager.fresh).1.create_entity.1 = none)
      ∧ (∀ types : List ι, (run_ops ops ComponentManager.fresh).1.create_entity.1
          ∉ (run_ops ops ComponentManager.fresh).1.create_entity.2.select types) := by
  have hb := issued_only_bounds ops [] (ComponentManager.fresh : ComponentManager ι C)
    (fun e he => absurd he (List.not_mem_nil e))
    (fun i e he => by simp [ComponentManager.fresh, ComponentManager.get_entity, Table.find] at he)
    (le_refl _) h
  have hnone : ∀ i : ι, (run_ops ops ComponentManager.fresh).1.get_entity i
      (run_ops ops ComponentManager.fresh).1.create_entity.1 = none := by
    intro i
    cases hg : (run_ops ops (ComponentManager.fresh : ComponentManager ι C)).1.get_entity i
        (run_ops ops ComponentManager.fresh).1.create_entity.1 with
    | none => rfl
    | some c =>
      have := (hb i _ (by rw [hg]; rfl)).2
      exact absurd this (lt_irrefl _)
  have hsel : ∀ types : List ι, (run_ops ops ComponentManager.fresh).1.create_entity.1
      ∉ (run_ops ops (ComponentManager.fresh : ComponentManager ι C)).1.select types := by
    intro types hmem
    cases types with
    | nil => exact absurd hmem (List.not_mem_nil _)
    | cons i types =>
      have := (ComponentManager.mem_select_iff _ (i :: types) (by simp) _).mp hmem i
        (List.mem_cons_self i types)
      rw [hnone i] at this
      cases this
  refine ⟨fun i e he => hb i e ((Table.find_isSome_iff_mem_keys _ e).mpr he), hnone, hsel,
    hnone, hsel⟩

/-- C18 at the platformer store after `create_entity`, `XY(0,0)` on entity 0,
`create_entity`, `Input` on entity 1: the next identifier has no `XY`. -/
theorem C18_keys_below_counter_witness :
    issued_only [] (ComponentManager.fresh : Store) scenario_ops = true
      ∧ (run_ops scenario_ops (ComponentManager.fresh : Store)).1.get_entity CompType.XY
          (run_ops scenario_ops (ComponentManager.fresh : Store)).1.create_entity.1 = none :=
  ⟨rfl, (C18_keys_below_counter scenario_ops rfl).2.1 CompType.XY⟩

end lxecs
